import Mathlib

/-!
# jambonz feature server: instruction validation and the Cognigy task

A shallow embedding of `lib/tasks/task.js` (class `Task`) and
`lib/tasks/cognigy/index.js` (class `Cognigy` and the reply parsers).

Conventions of the embedding.

* JavaScript values are the inductive `JVal`.  Numbers are integers, strings are
  sequences of characters of the basic plane (one character per index).
* An object is the list of its own enumerable properties in `for ... in` order.
* A function that may throw returns `Except JSError _`.
* `Task.validate` is recursive through `#Name` references; the recursion budget
  is explicit (`Nat`), and `none` means the budget ran out.
* A handler of the Cognigy task is a function from a state to a `Step`: the new
  state, the calls it makes to its collaborators in program order (`Effect`),
  and the error it throws, if any.  Logging is left out.
* The collaborators are not part of the two files: the socket client, the media
  endpoint, the speech configuration, the task factory, the queue package and
  the hook methods.  A call to one of them returns normally, except where the
  source has a handler for its failure; there the outcome is an input of the
  handler (`sendThrows`, `failure`, `HookOutcome`).
* A handler is run to its end before the next event is handled.  The callback
  that a handler registers on the promise of the event hook is placed after the
  rest of that handler, since the handler does not wait for the promise.
-/

namespace Jambonz

/-! ## JavaScript values -/

/-- JavaScript values as they occur in instruction payloads, spec descriptors,
bot replies and action payloads. -/
inductive JVal where
  | undefined : JVal
  | null : JVal
  | bool (b : Bool) : JVal
  | num (n : Int) : JVal
  | str (s : String) : JVal
  | arr (items : List JVal) : JVal
  | obj (props : List (String × JVal)) : JVal
  deriving Repr, Inhabited

/-- Errors thrown by the code under study.  The first six are the `Error`s that
`Task.validate` throws itself, named after their message; `assertion` is an
`AssertionError` from `assert.ok`; `typeError` is a `TypeError` of the runtime;
`collaborator` is an error that a collaborator of the task raised. -/
inductive JSError where
  /-- The message is `invalid instruction: <name>`. -/
  | invalidInstruction (name : String)
  /-- The message is `<name>: property <key> has invalid data type`. -/
  | invalidDataType (name key : String)
  /-- The message is `<name>: property <key> is not an array`. -/
  | notAnArray (name key : String)
  /-- The message is `invalid value <dVal> must be one of <enum>`. -/
  | invalidValue (dVal : JVal) (allowed : List JVal)
  /-- The message is `<name>: unknown property <key>`. -/
  | unknownProperty (name key : String)
  /-- The message is `<name>: missing value for <required>`. -/
  | missingValue (name : String) (required : List String)
  | assertion
  | typeError
  | collaborator
  deriving Repr

namespace JVal

/-- The `typeof` operator. -/
def typeOf : JVal → String
  | undefined => "undefined"
  | null => "object"
  | bool _ => "boolean"
  | num _ => "number"
  | str _ => "string"
  | arr _ => "object"
  | obj _ => "object"

/-- The function `Array.isArray`. -/
def isArray : JVal → Bool
  | arr _ => true
  | _ => false

/-- Truthiness: the conversion to boolean made by `if`, `&&` and `||`. -/
def truthy : JVal → Bool
  | undefined => false
  | null => false
  | bool b => b
  | num n => n != 0
  | str s => s != ""
  | arr _ => true
  | obj _ => true

/-- Strict equality of a value with a primitive of a list, as made by
`Array.prototype.includes`: primitives compare by value, objects and arrays by
identity, and a value taken from a payload is never identical to a member of a
spec. -/
def sameValueZero : JVal → JVal → Bool
  | undefined, undefined => true
  | null, null => true
  | bool a, bool b => a == b
  | num a, num b => a == b
  | str a, str b => a == b
  | _, _ => false

/-- The method `includes` of an array. -/
def includes (xs : List JVal) (v : JVal) : Bool :=
  xs.any (fun x => sameValueZero x v)

/-- Property read `v.key` for a key that no prototype defines: the own property
of an object, `undefined` on every other value that is not nullish, and a
`TypeError` on `undefined` and `null`. -/
def get (v : JVal) (key : String) : Except JSError JVal :=
  match v with
  | undefined => .error .typeError
  | null => .error .typeError
  | obj props => .ok ((props.lookup key).getD undefined)
  | _ => .ok undefined

/-- Optional chaining `v?.key`. -/
def getOpt (v : JVal) (key : String) : JVal :=
  match v with
  | obj props => (props.lookup key).getD undefined
  | _ => undefined

/-- The one-character strings of a string, in order. -/
def chars (s : String) : List JVal :=
  s.data.map (fun c => str (String.mk [c]))

/-- Decimal index keys paired with the members of a list. -/
def indexed (xs : List JVal) : List (String × JVal) :=
  (List.range xs.length).map (fun i => toString i) |>.zip xs

/-- The pairs `(dKey, data[dKey])` visited by `for (const dKey in data)`: the
own properties of an object, the indices of an array or of a string, nothing for
the other values. -/
def forInEntries : JVal → List (String × JVal)
  | obj props => props
  | arr items => indexed items
  | str s => indexed (chars s)
  | _ => []

/-- The members visited by `for (const item of v)`, a `TypeError` when the value
is not iterable. -/
def forOfItems : JVal → Except JSError (List JVal)
  | arr items => .ok items
  | str s => .ok (chars s)
  | _ => .error .typeError

end JVal

/-- When the string starts with `#`, the rest of it (`s.slice(1)`). -/
def refName (s : String) : Option String :=
  match s.data with
  | '#' :: rest => some (String.mk rest)
  | _ => none

/-! ## Task.validate -/

/-- One entry of the spec registry: `required` is `specData.required || []`,
`properties` the own properties of `specData.properties`. -/
structure SpecData where
  required : List String
  properties : List (String × JVal)
  deriving Repr

/-- The module-level map `specs`, filled from `./specs` (taken as a parameter). -/
abbrev Registry := List (String × SpecData)

/-- The names every plain object inherits from `Object.prototype`; the `in`
operator finds them in `specData.properties` too. -/
def objectPrototypeKeys : List String :=
  ["constructor", "__defineGetter__", "__defineSetter__", "hasOwnProperty",
   "__lookupGetter__", "__lookupSetter__", "isPrototypeOf", "propertyIsEnumerable",
   "toString", "valueOf", "__proto__", "toLocaleString"]

/-- The primitive type names accepted by `validate`. -/
def simpleTypes : List String := ["number", "string", "object", "boolean"]

/-- Result of `validate`: `none` when the recursion budget ran out, otherwise the
normal return or the error thrown. -/
abbrev Outcome := Option (Except JSError Unit)

/-- The loop `for (const item of dVal) Task.validate(name, item)` over the
members already extracted; the first failure ends it. -/
def validateItems (recur : String → JVal → Outcome) (name : String) :
    List JVal → Outcome
  | [] => some (.ok ())
  | item :: rest =>
    match recur name item with
    | some (.ok ()) => validateItems recur name rest
    | r => r

/-- The check of one present value `dVal` against its descriptor `dSpec`
(lines 79 to 113 of `task.js`). -/
def checkProperty (recur : String → JVal → Outcome) (name dKey : String)
    (dVal dSpec : JVal) : Outcome :=
  match dSpec with
  | .str t =>
    if simpleTypes.contains t then
      if dVal.typeOf != t then some (.error (.invalidDataType name dKey))
      else some (.ok ())
    else if t == "array" then
      if !dVal.isArray then some (.error (.notAnArray name dKey)) else some (.ok ())
    else
      match refName t with
      | some ref => recur ref dVal
      | none => some (.error .assertion)
  | .arr ds =>
    match ds with
    | .str t :: _ =>
      match refName t with
      | some ref =>
        match dVal.forOfItems with
        | .ok items => validateItems recur ref items
        | .error e => some (.error e)
      | none => some (.error .assertion)
    | _ => some (.error .typeError)
  | .obj props =>
    match props.lookup "type" with
    | some (.str type) =>
      if simpleTypes.contains type then
        if type == "string" && ((props.lookup "enum").getD .undefined).truthy then
          match (props.lookup "enum").getD .undefined with
          | .arr allowed =>
            if !JVal.includes allowed dVal then some (.error (.invalidValue dVal allowed))
            else some (.ok ())
          | _ => some (.error .assertion)
        else some (.ok ())
      else some (.error .assertion)
    | _ => some (.error .assertion)
  | .null => some (.error .typeError)
  | _ => some (.error .assertion)

/-- The loop over the keys of `data` (lines 73 to 118), with `required` the
keys still unmet. -/
def validateKeys (recur : String → JVal → Outcome) (name : String) (specData : SpecData) :
    List String → List (String × JVal) → Outcome
  | required, [] =>
    if required.length > 0 then some (.error (.missingValue name required))
    else some (.ok ())
  | required, (dKey, dVal) :: rest =>
    match specData.properties.lookup dKey with
    | some dSpec =>
      match checkProperty recur name dKey dVal dSpec with
      | some (.ok ()) =>
        validateKeys recur name specData (required.filter (fun item => item != dKey)) rest
      | r => r
    | none =>
      if objectPrototypeKeys.contains dKey then some (.error .assertion)
      else some (.error (.unknownProperty name dKey))

/-- The static method `Task.validate(name, data)` over the registry `specs`,
with a bound on the depth of nested calls. -/
def Task.validate (specs : Registry) : Nat → String → JVal → Outcome
  | 0, _, _ => none
  | fuel + 1, name, data =>
    match specs.lookup name with
    | none => some (.error (.invalidInstruction name))
    | some specData =>
      validateKeys (Task.validate specs fuel) name specData specData.required
        data.forInEntries

/-! ## Reply parsers of the Cognigy task -/

/-- The function `parseGallery(obj = {})`: the default parameter replaces an
`undefined` argument only. -/
def parseGallery (arg : JVal) : Except JSError JVal :=
  let obj := match arg with
    | .undefined => JVal.obj []
    | v => v
  match obj.get "_default" with
  | .error e => .error e
  | .ok dflt =>
    if dflt.truthy then
      let gallery := dflt.getOpt "_gallery"
      if gallery.truthy then .ok (gallery.getOpt "fallbackText") else .ok .undefined
    else .ok .undefined

/-- The function `parseQuickReplies(obj)`: no default parameter, so the
destructuring of a nullish argument throws. -/
def parseQuickReplies (obj : JVal) : Except JSError JVal :=
  match obj.get "_default" with
  | .error e => .error e
  | .ok dflt =>
    if dflt.truthy then
      let quickReplies := dflt.getOpt "_quickReplies"
      if quickReplies.truthy then
        if (quickReplies.getOpt "text").truthy then .ok (quickReplies.getOpt "text")
        else .ok (quickReplies.getOpt "fallbackText")
      else .ok .undefined
    else .ok .undefined

/-- The function `parseBotText(evt)`. -/
def parseBotText (evt : JVal) : Except JSError JVal :=
  match evt.get "text", evt.get "data" with
  | .ok text, .ok data =>
    if text.truthy then .ok text
    else
      match data.getOpt "type" with
      | .str "quickReplies" => parseQuickReplies (data.getOpt "_cognigy")
      | .str "gallery" => parseGallery (data.getOpt "_cognigy")
      | _ => .ok .undefined
  | .error e, _ => .error e
  | _, .error e => .error e

/-! ## Task and Cognigy state -/

/-- The fields of the base class `Task` that the methods under study read or
write.  `completionResolved` is the state of `_completionPromise`; `action` is
`this.action`; `hooksBound` says that `exec` has bound the action hook. -/
structure Task where
  killInProgress : Bool
  completionResolved : Bool
  action : JVal
  hooksBound : Bool
  deriving Repr

/-- The constructor of `Task`. -/
def Task.create : Task :=
  { killInProgress := false, completionResolved := false, action := .undefined,
    hooksBound := false }

/-- The method `Task.kill`: it sets the flag and does nothing else. -/
def Task.kill (t : Task) : Task :=
  { t with killInProgress := true }

/-- The method `Task.notifyTaskDone`: resolving a resolved promise changes nothing. -/
def Task.notifyTaskDone (t : Task) : Task :=
  { t with completionResolved := true }

/-- The retry policy `this.retry`; a field the object lacks is `none`. -/
structure Retry where
  noInputRetries : Option Nat
  noInputSpeech : JVal
  noInputUrl : JVal
  deriving Repr

/-- The conversation channel `this.client`, owned by the socket library: the
task reads `connected` and adds or removes listeners. -/
structure Client where
  connected : Bool
  listeners : Bool
  deriving Repr

/-- The media endpoint `this.ep`. -/
structure Endpoint where
  connected : Bool
  deriving Repr

/-- The state of a `Cognigy` instance.  `listeners` says that the handlers of
the instance are attached to its own emitter; `transcribeTask` says that the
field of that name holds a task; `configRetry` is the `retry` part of what
`config.makeGatherTaskConfig` returns (the class `SpeechConfig` is not among
the sources and is a parameter); `queueEnded` records that `taskQueue.end()`
was called.  The fields of `client` and `ep` belong to the collaborators: the
handlers read `connected` and never assign it. -/
structure Cognigy extends Task where
  data : JVal
  eventHook : JVal
  reportedFinalAction : Bool
  isReplacingApplication : Bool
  prompts : List JVal
  retry : Retry
  timeoutCount : Nat
  listeners : Bool
  client : Option Client
  ep : Option Endpoint
  transcribeTask : Bool
  gatherTask : Option (JVal × JVal)
  queueEnded : Bool
  configRetry : Retry
  deriving Repr

/-- What a handler does to its collaborators, one constructor per call. -/
inductive Effect where
  /-- The call `this.performAction(method, auth)`. -/
  | performAction (method auth : JVal)
  /-- The call `this.notifyTaskDone()`. -/
  | notifyTaskDone
  /-- The call `this.performHook(cs, hook, (event, message))`. -/
  | performHook (hook : JVal) (event : String) (message : JVal)
  /-- The call `this.client.connect()`. -/
  | clientConnect
  /-- The call `this.client.sendMessage(text, data)`. -/
  | sendMessage (text data : JVal)
  /-- The call `this.config.update(data)`. -/
  | configUpdate (data : JVal)
  /-- The call `makeTask(logger, (kind: opts), this)` for say, hangup and refer. -/
  | makeTask (kind : String) (opts : JVal)
  /-- The body of `_makeGatherTask((textPrompt, urlPrompt))`. -/
  | makeGather (textPrompt urlPrompt : JVal)
  /-- The call `this.gatherTask.exec(cs, ep, this)`. -/
  | gatherExec
  /-- The call `this.taskQueue.push(job)`. -/
  | queuePush
  /-- The call `this.removeAllListeners()`. -/
  | removeAllListeners
  /-- The call `this.transcribeTask.kill()`. -/
  | transcribeKill
  /-- The call `this.client.removeAllListeners()`. -/
  | clientRemoveAllListeners
  /-- The call `this.client.disconnect()`. -/
  | clientDisconnect
  /-- The call `this.taskQueue.end()`. -/
  | queueEnd
  /-- The call `ep.api('uuid_break', uuid)`. -/
  | uuidBreak
  deriving Repr

/-- A handler's result: the new state, the effects in program order, and the
error when the handler throws (or its promise is rejected). -/
structure Step where
  state : Cognigy
  trace : List Effect
  raised : Option JSError
  deriving Repr

/-- Sequencing of two parts of a handler: the second runs when the first did not throw. -/
def Step.andThen (r : Step) (f : Cognigy → Step) : Step :=
  match r.raised with
  | some _ => r
  | none => { state := (f r.state).state, trace := r.trace ++ (f r.state).trace,
              raised := (f r.state).raised }

/-- The payload `(cognigyResult: result)`. -/
def cognigyResult (result : String) : JVal :=
  .obj [("cognigyResult", .str result)]

/-- The default synthesizer of `_makeSayTask` and `exec`. -/
def defaultSynthesizer : JVal :=
  .obj [("vendor", .str "default"), ("language", .str "default"), ("voice", .str "default")]

/-- Modelled from the spec: the method `performHook`, which the handlers call and
neither source file defines.  Section 6 of the specification gives it as
`performHook(session, hookUrl, (event, message)) -> redirected: bool`, an
asynchronous call: its promise resolves with the redirect signal or it is
rejected. -/
inductive HookOutcome where
  | resolved (redirected : Bool)
  | rejected
  deriving Repr

/-- The events and calls an instance receives, each with what its collaborators
answer while it is handled. -/
inductive Event where
  | transcription (utterance : String) (hook : HookOutcome) (sendThrows : Bool)
  | dtmf (digits : JVal) (sendThrows : Bool)
  | botOutput (evt : JVal) (hook : HookOutcome) (failure : Option JVal)
  | botError (evt : JVal)
  | finalPing
  | timeout
  | error (err : JVal)
  | kill
  deriving Repr

namespace Cognigy

/-- The constructor of `Cognigy` on the instruction payload `opts`. -/
def create (opts : JVal) (configRetry : Retry) : Cognigy :=
  { Task.create with
    data := if (opts.getOpt "data").truthy then opts.getOpt "data" else .obj []
    eventHook := opts.getOpt "eventHook"
    reportedFinalAction := false
    isReplacingApplication := false
    prompts := []
    retry := { noInputRetries := none, noInputSpeech := .undefined, noInputUrl := .undefined }
    timeoutCount := 0
    listeners := false
    client := none
    ep := none
    transcribeTask := false
    gatherTask := none
    queueEnded := false
    configRetry := configRetry }

/-- The getter `hasReportedFinalAction`. -/
def hasReportedFinalAction (s : Cognigy) : Bool :=
  s.reportedFinalAction || s.isReplacingApplication

/-- The statement `this.notifyTaskDone()`, the inherited method. -/
def notifyTaskDone (s : Cognigy) : Step :=
  { state := { s with toTask := s.toTask.notifyTaskDone }, trace := [.notifyTaskDone],
    raised := none }

/-- The statements `this.reportedFinalAction = true; this.notifyTaskDone()`. -/
def markAndNotify (s : Cognigy) : Step :=
  notifyTaskDone { s with reportedFinalAction := true }

/-- The statement `if (!this.hasReportedFinalAction) this.performAction(payload)`. -/
def reportUnlessReported (payload : JVal) (s : Cognigy) : Step :=
  { state := s,
    trace := if s.hasReportedFinalAction then [] else [.performAction payload .undefined],
    raised := none }

/-- The method `kill`.  The reads `this.client.removeAllListeners` and
`this.ep.connected` throw a `TypeError` while `exec` has not assigned the
field; the promise returned by `kill` is then rejected at that point. -/
def kill (s : Cognigy) : Step :=
  let s1 : Cognigy := { s with toTask := s.toTask.kill, listeners := false }
  let t1 : List Effect :=
    [.removeAllListeners] ++ (if s.transcribeTask then [.transcribeKill] else [])
  match s.client with
  | none => { state := s1, trace := t1, raised := some .typeError }
  | some c =>
    let s2 : Cognigy :=
      { s1 with client := some { c with listeners := false }, queueEnded := true }
    let t2 : List Effect :=
      t1 ++ [.clientRemoveAllListeners] ++ (if c.connected then [.clientDisconnect] else [])
        ++ [.queueEnd]
    let s3 : Cognigy :=
      if s.hasReportedFinalAction then s2 else { s2 with reportedFinalAction := true }
    let t3 : List Effect :=
      t2 ++ (if s.hasReportedFinalAction then []
             else [.performAction (cognigyResult "caller hungup") .undefined])
    match s.ep with
    | none => { state := s3, trace := t3, raised := some .typeError }
    | some e =>
      { state := { s3 with toTask := s3.toTask.notifyTaskDone },
        trace := t3 ++ (if e.connected then [.uuidBreak] else []) ++ [.notifyTaskDone],
        raised := none }

/-- The call `this.kill(cs)` whose promise nobody awaits: a rejection is lost. -/
def killDetached (s : Cognigy) : Step :=
  { state := (kill s).state, trace := (kill s).trace, raised := none }

/-- The method `_makeGatherTask`: it asks the speech configuration for the
gather options, keeps their `retry` part in `this.retry` and makes the step. -/
def _makeGatherTask (textPrompt urlPrompt : JVal) (s : Cognigy) : Step :=
  { state := { s with retry := s.configRetry },
    trace := [.makeGather textPrompt urlPrompt],
    raised := none }

/-- The statements `this.gatherTask = this._makeGatherTask(...)` and
`this.gatherTask.exec(cs, ep, this)`. -/
def gatherStep (textPrompt urlPrompt : JVal) (s : Cognigy) : Step :=
  (_makeGatherTask textPrompt urlPrompt s).andThen
    (fun s1 => { state := { s1 with gatherTask := some (textPrompt, urlPrompt) },
                 trace := [.gatherExec], raised := none })

/-- The method `_makeSayTask`. -/
def _makeSayTask (s : Cognigy) (text : JVal) : Effect :=
  .makeTask "say" (.obj [("text", text),
    ("synthesizer", if (s.data.getOpt "synthesizer").truthy then s.data.getOpt "synthesizer"
                    else defaultSynthesizer)])

/-- The method `_makeHangupTask`. -/
def _makeHangupTask (reason : JVal) : Effect :=
  .makeTask "hangup" (.obj [("headers", .obj [("X-REASON", reason)])])

/-- The method `_makeReferTask`. -/
def _makeReferTask (number : JVal) : Effect :=
  .makeTask "sip:refer" (.obj [("referTo", number), ("referredBy", .str "cognigy")])

/-- The `then` callback registered on the event hook's promise.  It runs after
the synchronous part of the handler that registered it. -/
def hookContinuation (killTranscribe : Bool) (hook : HookOutcome) (s : Cognigy) : Step :=
  if s.eventHook.truthy then
    match hook with
    | .resolved true =>
      { state := { s with reportedFinalAction := true },
        trace := [.performAction (cognigyResult "redirect") (.bool false)] ++
          (if killTranscribe && s.transcribeTask then [.transcribeKill] else []),
        raised := none }
    | _ => { state := s, trace := [], raised := none }
  else { state := s, trace := [], raised := none }

/-- The call of the event hook at the start of a handler. -/
def callEventHook (event : String) (message : JVal) (s : Cognigy) : Step :=
  { state := s,
    trace := if s.eventHook.truthy then [.performHook s.eventHook event message] else [],
    raised := none }

/-- The `try` block that forwards caller input to the bot; `sendThrows` says
that the call `client.sendMessage` throws, which the `catch` block turns into
the final action `socketError`.  The call is in the trace in both cases. -/
def forwardToBot (message : JVal) (sendThrows : Bool) (s : Cognigy) : Step :=
  match s.client with
  | some c =>
    if c.connected then
      if sendThrows then
        (Step.mk s [.sendMessage message .undefined,
          .performAction (cognigyResult "socketError") .undefined] none).andThen markAndNotify
      else { state := s, trace := [.sendMessage message .undefined], raised := none }
    else { state := s, trace := [], raised := none }
  | none => { state := s, trace := [], raised := none }

/-- The handler `_onTranscription` for an event whose first alternative has the
transcript `utterance`. -/
def _onTranscription (s : Cognigy) (utterance : String) (hook : HookOutcome)
    (sendThrows : Bool) : Step :=
  ((callEventHook "userMessage" (.str utterance) s).andThen
    (forwardToBot (.str utterance) sendThrows)).andThen (hookContinuation true hook)

/-- The handler `_onDtmf` for an event with the digits `digits`. -/
def _onDtmf (s : Cognigy) (digits : JVal) (sendThrows : Bool) : Step :=
  forwardToBot digits sendThrows s

/-- The handler `_onError`. -/
def _onError (s : Cognigy) (err : JVal) : Step :=
  (reportUnlessReported (.obj [("cognigyResult", .str "error"), ("err", err)]) s).andThen
    markAndNotify

/-- The `else` branch of `_onTimeout`. -/
def timeoutExhausted (s : Cognigy) : Step :=
  (reportUnlessReported (cognigyResult "timeout") s).andThen markAndNotify

/-- The handler `_onTimeout`.  The counter is incremented whenever
`noInputRetries` is truthy, before the comparison's result is used. -/
def _onTimeout (s : Cognigy) : Step :=
  match s.retry.noInputRetries with
  | some n =>
    if n != 0 then
      if s.timeoutCount < n then
        gatherStep s.retry.noInputSpeech s.retry.noInputUrl
          { s with timeoutCount := s.timeoutCount + 1 }
      else timeoutExhausted { s with timeoutCount := s.timeoutCount + 1 }
    else timeoutExhausted s
  | none => timeoutExhausted s

/-- The handler `_onBotError`. -/
def _onBotError (s : Cognigy) (evt : JVal) : Step :=
  match evt.get "message" with
  | .error e => { state := s, trace := [], raised := some e }
  | .ok message =>
    (Step.mk s [.performAction (.obj [("cognigyResult", .str "botError"), ("message", message)])
      .undefined] none).andThen markAndNotify

/-- The handler `_onBotFinalPing`. -/
def _onBotFinalPing (s : Cognigy) : Step :=
  (gatherStep (.str "") .undefined s).andThen
    (fun s1 => { state := { s1 with prompts := [] }, trace := [], raised := none })

/-- The method `_enqueueTask` on the operation whose effects are `op`: the
queue has `concurrency: 1` and `autostart: true`, so the pushed job starts at
once; `_enqueueTask` does not look at whether the queue was ended. -/
def _enqueueTask (op : Cognigy → Step) (s : Cognigy) : Step :=
  (Step.mk s [.queuePush] none).andThen op

/-- The operation enqueued for a say step: it makes the step. -/
def sayOp (text : JVal) (s : Cognigy) : Step :=
  { state := s, trace := [_makeSayTask s text], raised := none }

/-- The operation enqueued for `hangup` and `refer`: make the step, report the
final action, mark it reported, signal completion, call `kill`. -/
def controlOp (step : Effect) (result : String) (s : Cognigy) : Step :=
  ((Step.mk s [step, .performAction (cognigyResult result) .undefined] none).andThen
    markAndNotify).andThen killDetached

/-- The `try` and `catch` around a control step; `failure` is the error thrown
while the step is made and enqueued, if any. -/
def controlStep (step : Effect) (result : String) (failure : Option JVal)
    (s : Cognigy) : Step :=
  match failure with
  | none => _enqueueTask (controlOp step result) s
  | some err =>
    ((Step.mk s [.queuePush] none).andThen
      (reportUnlessReported (.obj [("cognigyResult", .str "error"), ("err", err)]))).andThen
      markAndNotify

/-- The part of `_onBotUtterance` after the call of the event hook. -/
def botUtteranceBody (evt : JVal) (failure : Option JVal) (s : Cognigy) : Step :=
  match parseBotText evt with
  | .error e => { state := s, trace := [], raised := some e }
  | .ok text =>
    let data := evt.getOpt "data"
    ((Step.mk s (if data.truthy then [.configUpdate data] else []) none).andThen
      (fun s1 => if text.truthy then _enqueueTask (sayOp text) s1
                 else { state := s1, trace := [], raised := none })).andThen
      (fun s2 =>
        if data.truthy && (data.getOpt "type").truthy then
          match data.getOpt "type" with
          | .str "hangup" =>
            controlStep (_makeHangupTask (data.getOpt "reason")) "hangup Succeeded" failure s2
          | .str "refer" =>
            controlStep (_makeReferTask (data.getOpt "number")) "refer succeeded" failure s2
          | _ => { state := s2, trace := [], raised := none }
        else { state := s2, trace := [], raised := none })

/-- The handler `_onBotUtterance`.  The callback of the event hook runs also
when the body threw. -/
def _onBotUtterance (s : Cognigy) (evt : JVal) (hook : HookOutcome)
    (failure : Option JVal) : Step :=
  let body := (callEventHook "botMessage" evt s).andThen (botUtteranceBody evt failure)
  let after := hookContinuation false hook body.state
  { state := after.state, trace := body.trace ++ after.trace, raised := body.raised }

/-- The method `exec` up to the wait for completion: `connects` says that
`client.connect()` succeeds, `welcome` is the merge of `this.data` and
`cs.callInfo` sent with the welcome message. -/
def exec (s : Cognigy) (ep : Endpoint) (connects : Bool) (welcome : JVal) : Step :=
  { state := { s with hooksBound := true, ep := some ep, listeners := true,
                      client := some { connected := connects, listeners := true } },
    trace := [.clientConnect] ++
      (if connects then [.sendMessage (.str "Welcome Message") welcome] else []),
    raised := if connects then none else some .collaborator }

/-- The step nothing happens in. -/
def idle (s : Cognigy) : Step :=
  { state := s, trace := [], raised := none }

/-- The channel has listeners attached. -/
def clientListening (s : Cognigy) : Bool :=
  match s.client with
  | some c => c.listeners
  | none => false

/-- Delivery of one event: a handler runs while its listener is attached;
`kill` is a method call and always runs. -/
def deliver (s : Cognigy) : Event → Step
  | .transcription u h t => if s.listeners then _onTranscription s u h t else idle s
  | .dtmf d t => if s.listeners then _onDtmf s d t else idle s
  | .timeout => if s.listeners then _onTimeout s else idle s
  | .error err => if s.listeners then _onError s err else idle s
  | .botOutput evt h f => if clientListening s then _onBotUtterance s evt h f else idle s
  | .botError evt => if clientListening s then _onBotError s evt else idle s
  | .finalPing => if clientListening s then _onBotFinalPing s else idle s
  | .kill => kill s

/-- Delivery of a sequence of events, one handler after the other: the final
state and all effects in order. -/
def run (s : Cognigy) : List Event → Cognigy × List Effect
  | [] => (s, [])
  | ev :: rest =>
    ((run (deliver s ev).state rest).1, (deliver s ev).trace ++ (run (deliver s ev).state rest).2)

end Cognigy

/-- Says whether an effect is a report through `performAction`. -/
def Effect.isReport : Effect → Bool
  | .performAction _ _ => true
  | _ => false

/-- Says whether an effect is the making of a gather step. -/
def Effect.isGather : Effect → Bool
  | .makeGather _ _ => true
  | _ => false

/-- Says whether an effect is the making of a say step. -/
def Effect.isSay : Effect → Bool
  | .makeTask "say" _ => true
  | _ => false

/-- Says whether an effect signals completion. -/
def Effect.isDone : Effect → Bool
  | .notifyTaskDone => true
  | _ => false

/-! ## The contracts as the specification words them -/

/-- The specification's reading of "the value matches the type or enum set its
property declares": a primitive type name asks for that `typeof`, `array` for an
array, a descriptor with `type` (and a list `enum`) for that `typeof` (and
membership; an `enum` that is falsy declares nothing, any other is no enum set),
`#Name` for a value that conforms to `Name`, and a list of `#Name` for an array
whose members all conform to `Name`. -/
def specValueMatches (conf : String → JVal → Bool) (dSpec dVal : JVal) : Bool :=
  match dSpec with
  | .str t =>
    if simpleTypes.contains t then dVal.typeOf == t
    else if t == "array" then dVal.isArray
    else
      match refName t with
      | some ref => conf ref dVal
      | none => false
  | .arr (.str t :: _) =>
    match refName t, dVal with
    | some ref, .arr items => items.all (conf ref)
    | _, _ => false
  | .obj props =>
    match props.lookup "type" with
    | some (.str type) =>
      simpleTypes.contains type && dVal.typeOf == type &&
        (match props.lookup "enum" with
         | none => true
         | some (.arr allowed) => JVal.includes allowed dVal
         | some e => !e.truthy)
    | _ => false
  | _ => false

/-- The specification's condition for `validate(name, data)` to succeed: the
name is registered, every key of `data` is a registered property whose value
matches what the property declares, and every required key is present. -/
def specConforms (specs : Registry) : Nat → String → JVal → Bool
  | 0, _, _ => false
  | fuel + 1, name, data =>
    match specs.lookup name with
    | none => false
    | some specData =>
      data.forInEntries.all (fun kv =>
        match specData.properties.lookup kv.1 with
        | some dSpec => specValueMatches (specConforms specs fuel) dSpec kv.2
        | none => false) &&
      specData.required.all (fun r => data.forInEntries.any (fun kv => kv.1 == r))

/-- The specification's dispatch for the spoken text of a bot reply: the text
field when it is not empty; else for `quickReplies` the text of the quick
replies or, when that is empty, their fallback text; for `gallery` the fallback
text of the gallery; no text otherwise. -/
def specBotText (evt : JVal) : JVal :=
  if (evt.getOpt "text").truthy then evt.getOpt "text"
  else
    match (evt.getOpt "data").getOpt "type" with
    | .str "quickReplies" =>
      let quickReplies :=
        (((evt.getOpt "data").getOpt "_cognigy").getOpt "_default").getOpt "_quickReplies"
      if (quickReplies.getOpt "text").truthy then quickReplies.getOpt "text"
      else quickReplies.getOpt "fallbackText"
    | .str "gallery" =>
      ((((evt.getOpt "data").getOpt "_cognigy").getOpt "_default").getOpt "_gallery").getOpt
        "fallbackText"
    | _ => .undefined

/-! ## Sample inputs -/

/-- A registry with a typed descriptor, a list of references and a required key. -/
def sampleRegistry : Registry :=
  [("listen", { required := ["url"],
                properties := [("url", .str "string"),
                               ("sampleRate", .obj [("type", .str "number")])] }),
   ("dial", { required := [], properties := [("target", .arr [.str "#target"])] }),
   ("target", { required := ["type"], properties := [("type", .str "string")] })]

/-- A `listen` payload whose `sampleRate` is a string. -/
def mistypedListen : JVal :=
  .obj [("url", .str "wss://example.com"), ("sampleRate", .str "fast")]

/-- A `dial` payload whose `target` is the empty string. -/
def emptyStringTarget : JVal :=
  .obj [("target", .str "")]

/-- A retry policy with two retries. -/
def samplePolicy : Retry :=
  { noInputRetries := some 2, noInputSpeech := .str "Are you there?", noInputUrl := .undefined }

/-- A fresh instance without event hook. -/
def freshInstance : Cognigy :=
  Cognigy.create (.obj [("url", .str "https://bot.example.com"), ("token", .str "t")])
    samplePolicy

/-- An instance without event hook after `exec` connected it. -/
def activeInstance : Cognigy :=
  (Cognigy.exec freshInstance { connected := true } true (.obj [])).state

/-- An instance with an event hook after `exec` connected it. -/
def hookedInstance : Cognigy :=
  (Cognigy.exec
    (Cognigy.create (.obj [("url", .str "https://bot.example.com"), ("token", .str "t"),
      ("eventHook", .str "/events")]) samplePolicy)
    { connected := true } true (.obj [])).state

/-- A reply of type `quickReplies` without payload. -/
def bareQuickReplies : JVal :=
  .obj [("data", .obj [("type", .str "quickReplies")])]

/-- A reply of type `gallery` without payload. -/
def bareGallery : JVal :=
  .obj [("data", .obj [("type", .str "gallery")])]

/-! ## Further definitions used by the statements -/

/-- The state after `k` consecutive timeouts handled by `_onTimeout`. -/
def afterTimeouts : Nat → Cognigy → Cognigy
  | 0, s => s
  | k + 1, s => (Cognigy._onTimeout (afterTimeouts k s)).state

/-- An instance whose retry policy was armed by a final ping. -/
def pingedInstance : Cognigy :=
  (Cognigy._onBotFinalPing activeInstance).state

/-- An instance whose event hook signalled redirect on a transcription and
whose retry policy was then armed by a final ping. -/
def redirectedInstance : Cognigy :=
  (Cognigy.run hookedInstance [.transcription "hello" (.resolved true) false, .finalPing]).1

/-- The bot reply `(data: (type: 'hangup', reason: R))`. -/
def hangupReply (R : JVal) : JVal :=
  .obj [("data", .obj [("type", .str "hangup"), ("reason", R)])]

/-- Says whether an effect makes a say step or a gather step. -/
def Effect.isCallerAudio : Effect → Bool
  | .makeTask "say" _ => true
  | .makeGather _ _ => true
  | .gatherExec => true
  | _ => false

/-- Says whether an effect sends a message to the bot. -/
def Effect.isSend : Effect → Bool
  | .sendMessage _ _ => true
  | _ => false

/-- The place of an effect in the order of `kill`: 1 own listeners detached,
2 listening step stopped, 3 channel listeners detached, 4 channel disconnected
(both are step 3 of the specification), 5 queue closed, 6 final action reported,
7 audio halted, 8 completion signaled; 0 for an effect `kill` never makes. -/
def Effect.killRank : Effect → Nat
  | .removeAllListeners => 1
  | .transcribeKill => 2
  | .clientRemoveAllListeners => 3
  | .clientDisconnect => 4
  | .queueEnd => 5
  | .performAction _ _ => 6
  | .uuidBreak => 7
  | .notifyTaskDone => 8
  | _ => 0

/-- An executing instance that the call session marked as replacing the application. -/
def replacingInstance : Cognigy :=
  { activeInstance with isReplacingApplication := true }

/-- The effects of `kill` as a function of the four things it reads. -/
def killEffects (transcribing : Bool) (client : Option Client) (reported : Bool)
    (ep : Option Endpoint) : List Effect :=
  [.removeAllListeners] ++ (if transcribing then [.transcribeKill] else []) ++
    match client with
    | none => []
    | some c =>
      [.clientRemoveAllListeners] ++ (if c.connected then [.clientDisconnect] else []) ++
        [.queueEnd] ++
        (if reported then [] else [.performAction (cognigyResult "caller hungup") .undefined]) ++
        match ep with
        | none => []
        | some e => (if e.connected then [.uuidBreak] else []) ++ [.notifyTaskDone]

/-- The channel of the instance is present and connected. -/
def Cognigy.clientConnected (s : Cognigy) : Bool :=
  match s.client with
  | some c => c.connected
  | none => false

/-! ## Task.validate in memory -/

/-- One entry of the registry as it lies in memory: `required` is the address
of the array `specData.required`, or nothing when the spec has none. -/
structure SpecCell where
  required : Option Nat
  properties : List (String × JVal)

/-- The memory `Task.validate` works in: the arrays of key names, addressed by
position, and the registry whose `required` arrays are among them. -/
structure ValidateWorld where
  cells : List (List String)
  specs : List (String × SpecCell)

/-- The array at an address. -/
def ValidateWorld.read (w : ValidateWorld) (a : Nat) : List String :=
  w.cells.getD a []

/-- A new array is placed behind the existing ones; its address is returned. -/
def ValidateWorld.alloc (w : ValidateWorld) (xs : List String) : ValidateWorld × Nat :=
  ({ w with cells := w.cells ++ [xs] }, w.cells.length)

/-- The value of `specData.required || []` and of `specData.properties` for one entry. -/
def ValidateWorld.specData (w : ValidateWorld) (c : SpecCell) : SpecData :=
  { required := match c.required with
      | some a => w.read a
      | none => [],
    properties := c.properties }

/-- The registry as a reader of the memory sees it. -/
def ValidateWorld.registry (w : ValidateWorld) : Registry :=
  w.specs.map (fun e => (e.1, w.specData e.2))

/-- A step of the validation in memory: the memory after it and the outcome. -/
abbrev Stateful := ValidateWorld → ValidateWorld × Outcome

/-- The loop `for (const item of dVal) Task.validate(name, item)` in memory. -/
def validateItemsIn (recur : String → JVal → Stateful) (name : String) :
    List JVal → Stateful
  | [], w => (w, some (.ok ()))
  | item :: rest, w =>
    match recur name item w with
    | (w1, some (.ok ())) => validateItemsIn recur name rest w1
    | r => r

/-- The check of one present value against its descriptor (lines 79 to 113 of
`task.js`) in memory: only the nested calls touch it. -/
def checkPropertyIn (recur : String → JVal → Stateful) (name dKey : String)
    (dVal dSpec : JVal) (w : ValidateWorld) : ValidateWorld × Outcome :=
  match dSpec with
  | .str t =>
    if simpleTypes.contains t then
      if dVal.typeOf != t then (w, some (.error (.invalidDataType name dKey)))
      else (w, some (.ok ()))
    else if t == "array" then
      if !dVal.isArray then (w, some (.error (.notAnArray name dKey))) else (w, some (.ok ()))
    else
      match refName t with
      | some ref => recur ref dVal w
      | none => (w, some (.error .assertion))
  | .arr ds =>
    match ds with
    | .str t :: _ =>
      match refName t with
      | some ref =>
        match dVal.forOfItems with
        | .ok items => validateItemsIn recur ref items w
        | .error e => (w, some (.error e))
      | none => (w, some (.error .assertion))
    | _ => (w, some (.error .typeError))
  | .obj props =>
    match props.lookup "type" with
    | some (.str type) =>
      if simpleTypes.contains type then
        if type == "string" && ((props.lookup "enum").getD .undefined).truthy then
          match (props.lookup "enum").getD .undefined with
          | .arr allowed =>
            if !JVal.includes allowed dVal then (w, some (.error (.invalidValue dVal allowed)))
            else (w, some (.ok ()))
          | _ => (w, some (.error .assertion))
        else (w, some (.ok ()))
      else (w, some (.error .assertion))
    | _ => (w, some (.error .assertion))
  | .null => (w, some (.error .typeError))
  | _ => (w, some (.error .assertion))

/-- The loop over the keys of `data` (lines 73 to 118) in memory: the local
`required` holds the address of an array; `required.filter(...)` makes a new
array and rebinds the local to it. -/
def validateKeysIn (recur : String → JVal → Stateful) (name : String)
    (properties : List (String × JVal)) : Nat → List (String × JVal) → Stateful
  | required, [], w =>
    if (w.read required).length > 0 then
      (w, some (.error (.missingValue name (w.read required))))
    else (w, some (.ok ()))
  | required, (dKey, dVal) :: rest, w =>
    match properties.lookup dKey with
    | some dSpec =>
      match checkPropertyIn recur name dKey dVal dSpec w with
      | (w1, some (.ok ())) =>
        validateKeysIn recur name properties
          (w1.alloc ((w1.read required).filter (fun item => item != dKey))).2 rest
          (w1.alloc ((w1.read required).filter (fun item => item != dKey))).1
      | r => r
    | none =>
      if objectPrototypeKeys.contains dKey then (w, some (.error .assertion))
      else (w, some (.error (.unknownProperty name dKey)))

/-- The static method `Task.validate(name, data)` in memory:
`let required = specData.required || []` binds the local to the array of the
registry itself, or to a new empty array. -/
def Task.validateIn : Nat → String → JVal → Stateful
  | 0, _, _, w => (w, none)
  | fuel + 1, name, data, w =>
    match w.specs.lookup name with
    | none => (w, some (.error (.invalidInstruction name)))
    | some specData =>
      match specData.required with
      | some a =>
        validateKeysIn (Task.validateIn fuel) name specData.properties a data.forInEntries w
      | none =>
        validateKeysIn (Task.validateIn fuel) name specData.properties (w.alloc []).2
          data.forInEntries (w.alloc []).1

/-- Every `required` array of the registry is an array of the memory. -/
def ValidateWorld.wellFormed (w : ValidateWorld) : Prop :=
  ∀ e ∈ w.specs, ∀ a, e.2.required = some a → a < w.cells.length

/-- The second memory has the registry of the first and its arrays, unchanged,
before any new ones. -/
def ValidateWorld.extendedBy (w w2 : ValidateWorld) : Prop :=
  w2.specs = w.specs ∧ ∃ extra, w2.cells = w.cells ++ extra

/-- The sample registry in memory. -/
def sampleWorld : ValidateWorld :=
  { cells := [["url"], ["type"]],
    specs := [("listen", { required := some 0,
                           properties := [("url", .str "string"),
                                          ("sampleRate", .obj [("type", .str "number")])] }),
              ("dial", { required := none, properties := [("target", .arr [.str "#target"])] }),
              ("target", { required := some 1, properties := [("type", .str "string")] })] }

/-- A step in memory tracks a pure outcome from a memory on: started in any
memory that extends it, it only adds arrays and has that outcome. -/
def Tracks (w0 : ValidateWorld) (F : Stateful) (o : Outcome) : Prop :=
  ∀ w, w0.extendedBy w → w.extendedBy (F w).1 ∧ (F w).2 = o

/-! ## Definitions for the statements on validation -/

/-- The required keys that the entries do not supply, in the order of the list. -/
def absentRequired (required : List String) (entries : List (String × JVal)) : List String :=
  required.filter (fun r => !entries.any (fun kv => kv.1 == r))

/-- Says that the loop accepts the entry: its key is a registered property and
its value passes the check. -/
def entryPasses (recur : String → JVal → Outcome) (name : String) (specData : SpecData)
    (kv : String × JVal) : Prop :=
  ∃ dSpec, specData.properties.lookup kv.1 = some dSpec ∧
    checkProperty recur name kv.1 kv.2 dSpec = some (.ok ())

/-- A `listen` payload with a mistyped `url` before an unregistered key. -/
def badThenUnknown : JVal :=
  .obj [("url", .num 5), ("zzz", .num 1)]

/-- A `listen` payload without the required `url`. -/
def listenWithoutUrl : JVal :=
  .obj [("sampleRate", .num 8000)]

/-! ## Definitions for the statements on the task life cycle -/

/-- The re-prompts of a sequence of events: the gather steps that the handlers
of its timeout events make. -/
def Cognigy.reprompts (s : Cognigy) : List Event → Nat
  | [] => 0
  | .timeout :: rest =>
    ((Cognigy.deliver s .timeout).trace.filter Effect.isGather).length +
      Cognigy.reprompts (Cognigy.deliver s .timeout).state rest
  | ev :: rest => Cognigy.reprompts (Cognigy.deliver s ev).state rest

/-- Says that the speech configuration returns `policy` with every gather step
and that the policy in force allows no more retries than `policy` does. -/
def Cognigy.policyWithin (policy : Retry) (s : Cognigy) : Prop :=
  s.configRetry = policy ∧
    ∀ n, s.retry.noInputRetries = some n → n ≤ policy.noInputRetries.getD 0

/-- Says whether an effect is the call `taskQueue.push`. -/
def Effect.isPush : Effect → Bool
  | .queuePush => true
  | _ => false

/-- No listener is attached, neither to the instance nor to its channel. -/
def Cognigy.detached (s : Cognigy) : Prop :=
  s.listeners = false ∧ Cognigy.clientListening s = false

/-- What `performAction` does to its collaborators, one constructor per call. -/
inductive ActionCall where
  /-- The call `this.actionHook(this.action, method, auth, results)`. -/
  | actionHook (action method auth results : JVal)
  /-- The call `this.callSession.replaceApplication(tasks)`. -/
  | replaceApplication (tasks : JVal)
  deriving Repr

/-- The method `Task.exec(cs)`: it keeps the session and binds the hooks. -/
def Task.exec (t : Task) : Task :=
  { t with hooksBound := true }

/-- The method `Task.performAction(method, auth, results)`: the calls it makes
and the error its promise is rejected with.  `hook` is what the promise of the
action hook settles with.  Before `exec`, `this.actionHook` is not a function
and the call throws a `TypeError`. -/
def Task.performAction (t : Task) (method auth results : JVal) (hook : Except JSError JVal) :
    List ActionCall × Option JSError :=
  if t.action.truthy then
    if t.hooksBound then
      match hook with
      | .ok tasks =>
        if tasks.truthy && tasks.isArray then
          ([.actionHook t.action method auth results, .replaceApplication tasks], none)
        else ([.actionHook t.action method auth results], none)
      | .error e => ([.actionHook t.action method auth results], some e)
    else ([], some .typeError)
  else ([], none)

/-- An instance whose instruction names an action hook, after `exec` connected it. -/
def actionHookInstance : Cognigy :=
  (Cognigy.exec
    (Cognigy.create (.obj [("url", .str "https://bot.example.com"), ("token", .str "t"),
      ("actionHook", .str "/action")]) samplePolicy)
    { connected := true } true (.obj [])).state

/-- An instance after `exec` connected it and `kill` closed its queue. -/
def killedInstance : Cognigy :=
  (Cognigy.kill activeInstance).state

/-- A registry whose spec `X` declares the index `0` as a reference to `X`
itself, and a spec `holder` with a property validated against `X`. -/
def loopRegistry : Registry :=
  [("X", { required := [], properties := [("0", .str "#X")] }),
   ("holder", { required := [], properties := [("k", .str "#X")] })]

/-- The value is `undefined` or `null`. -/
def JVal.isNullish : JVal → Bool
  | .undefined => true
  | .null => true
  | _ => false

/-- A reply of type `quickReplies` whose payload is `null`. -/
def nullQuickReplies : JVal :=
  .obj [("data", .obj [("type", .str "quickReplies"), ("_cognigy", .null)])]

/-- A reply of type `gallery` whose payload is `null`. -/
def nullGallery : JVal :=
  .obj [("data", .obj [("type", .str "gallery"), ("_cognigy", .null)])]

/-! ## Definitions for the statement on termination -/

/-- No spec of the registry declares a property named `0`. -/
def Registry.noIndexZero (specs : Registry) : Prop :=
  ∀ name specData, specs.lookup name = some specData → specData.properties.lookup "0" = none

/-- Two specs that refer to each other. -/
def cyclicRegistry : Registry :=
  [("A", { required := [], properties := [("b", .str "#B")] }),
   ("B", { required := [], properties := [("a", .str "#A")] })]

/-- A payload nested along the references of the two specs. -/
def nestedPayload : JVal :=
  .obj [("b", .obj [("a", .obj [("b", .obj [])])])]

/-- The call on a value returns within the budget, and so does the loop over
its members when it has members. -/
def Returns (specs : Registry) (v : JVal) (F : Nat) : Prop :=
  ∀ fuel, F ≤ fuel → ∀ name,
    (Task.validate specs fuel name v).isSome = true ∧
    ∀ items, v.forOfItems = .ok items →
      (validateItems (Task.validate specs fuel) name items).isSome = true

/-! ## Definitions for the statement on the order of teardown -/

/-- An executing instance with a listening step in flight that the call session
marked as replacing the application. -/
def replacingListeningInstance : Cognigy :=
  { activeInstance with isReplacingApplication := true, transcribeTask := true }

/-- An executing instance with a listening step in flight. -/
def listeningInstance : Cognigy :=
  { activeInstance with transcribeTask := true }

/-! ## Theorems -/

/-! ### Instruction validation -/

/-- The loop over the members succeeds when every member is accepted. -/
theorem validateItems_ok (recur : String → JVal → Outcome) (conf : String → JVal → Bool)
    (hrec : ∀ n v, conf n v = true → recur n v = some (.ok ())) (ref : String) :
    ∀ items : List JVal, items.all (conf ref) = true →
      validateItems recur ref items = some (.ok ()) := by
  intro items
  induction items with
  | nil => intro _; rfl
  | cons item rest ih =>
    intro h
    simp only [List.all_cons, Bool.and_eq_true] at h
    simp only [validateItems, hrec ref item h.1]
    exact ih h.2

/-- A value that matches its descriptor in the sense of the specification passes
the check of the code. -/
theorem checkProperty_ok (recur : String → JVal → Outcome) (conf : String → JVal → Bool)
    (hrec : ∀ n v, conf n v = true → recur n v = some (.ok ()))
    (name dKey : String) (dVal dSpec : JVal)
    (h : specValueMatches conf dSpec dVal = true) :
    checkProperty recur name dKey dVal dSpec = some (.ok ()) := by
  unfold specValueMatches at h
  unfold checkProperty
  split at h
  · rename_i t
    dsimp only
    by_cases h1 : simpleTypes.contains t = true
    · rw [if_pos h1] at h ⊢
      simp only [beq_iff_eq] at h
      simp [h]
    · rw [if_neg h1] at h ⊢
      by_cases h2 : (t == "array") = true
      · rw [if_pos h2] at h ⊢
        simp [h]
      · rw [if_neg h2] at h ⊢
        cases hr : refName t with
        | none => simp [hr] at h
        | some ref =>
          simp only [hr] at h ⊢
          exact hrec _ _ h
  · rename_i t rest
    dsimp only
    cases hr : refName t with
    | none => simp [hr] at h
    | some ref =>
      cases dVal <;> simp [hr] at h
      rename_i items
      simp only [hr, JVal.forOfItems]
      exact validateItems_ok recur conf hrec ref items (by simpa using h)
  · rename_i props
    dsimp only
    cases hty : props.lookup "type" with
    | none => simp [hty] at h
    | some tv =>
      cases tv <;> simp [hty] at h
      rename_i type
      obtain ⟨⟨hs, _⟩, he⟩ := h
      have hs' : simpleTypes.contains type = true := by simpa using hs
      simp only [hs', if_true]
      cases henum : props.lookup "enum" with
      | none => simp [JVal.truthy]
      | some e =>
        cases e <;> simp [henum, JVal.truthy] at he ⊢ <;> simp [he]
  · exact absurd h (by simp)

/-- The loop over the keys succeeds when every entry is a registered property
with a matching value and every key still required is among the entries. -/
theorem validateKeys_ok (recur : String → JVal → Outcome) (conf : String → JVal → Bool)
    (hrec : ∀ n v, conf n v = true → recur n v = some (.ok ()))
    (name : String) (specData : SpecData) :
    ∀ (entries : List (String × JVal)) (required : List String),
      entries.all (fun kv =>
        match specData.properties.lookup kv.1 with
        | some dSpec => specValueMatches conf dSpec kv.2
        | none => false) = true →
      required.all (fun r => entries.any (fun kv => kv.1 == r)) = true →
      validateKeys recur name specData required entries = some (.ok ()) := by
  intro entries
  induction entries with
  | nil =>
    intro required _ hreq
    cases required with
    | nil => rfl
    | cons r rs => simp at hreq
  | cons kv rest ih =>
    intro required hall hreq
    obtain ⟨k, v⟩ := kv
    simp only [List.all_cons, Bool.and_eq_true] at hall
    obtain ⟨hkv, hrest⟩ := hall
    cases hl : specData.properties.lookup k with
    | none => simp [hl] at hkv
    | some dSpec =>
      simp only [hl] at hkv
      simp only [validateKeys, hl, checkProperty_ok recur conf hrec name k v dSpec hkv]
      apply ih _ hrest
      rw [List.all_eq_true] at hreq ⊢
      intro r hr
      rw [List.mem_filter] at hr
      have h1 := hreq r hr.1
      simp only [List.any_cons, Bool.or_eq_true] at h1
      rcases h1 with h1 | h1
      · have : k = r := by simpa using h1
        subst this
        simp at hr
      · exact h1

/-- The "if" direction of the validation contract: whenever the condition of
the specification holds, `Task.validate` returns normally (with the same
recursion budget). -/
theorem validate_returns_on_conforming (specs : Registry) :
    ∀ (fuel : Nat) (name : String) (data : JVal),
      specConforms specs fuel name data = true →
      Task.validate specs fuel name data = some (.ok ()) := by
  intro fuel
  induction fuel with
  | zero => intro name data h; simp [specConforms] at h
  | succ fuel ih =>
    intro name data h
    unfold specConforms at h
    unfold Task.validate
    cases hl : List.lookup name specs with
    | none => simp [hl] at h
    | some specData =>
      simp only [hl, Bool.and_eq_true] at h ⊢
      exact validateKeys_ok _ _ ih name specData _ _ h.1 h.2

/-- C1 (defect of the code): `Task.validate` returns normally on payloads that
do not satisfy the contract.  With the descriptor `(type: 'number')` for
`sampleRate`, the string value `'fast'` is accepted, and with the descriptor
`['#target']` for `target` the empty string is accepted, although the
specification's condition fails for both. -/
theorem validate_accepts_nonconforming (fuel : Nat) :
    Task.validate sampleRegistry (fuel + 1) "listen" mistypedListen = some (.ok ()) ∧
    specConforms sampleRegistry (fuel + 1) "listen" mistypedListen = false ∧
    Task.validate sampleRegistry (fuel + 1) "dial" emptyStringTarget = some (.ok ()) ∧
    specConforms sampleRegistry (fuel + 1) "dial" emptyStringTarget = false := by
  refine ⟨rfl, rfl, rfl, rfl⟩

/-! ### The final-action flag -/

/-- A property of the state that both parts of a handler keep is kept by their sequence. -/
theorem andThen_keeps (P : Cognigy → Prop) (r : Step) (f : Cognigy → Step)
    (hr : P r.state) (hf : ∀ s, P s → P (f s).state) : P (r.andThen f).state := by
  unfold Step.andThen
  cases r.raised with
  | none => exact hf _ hr
  | some _ => exact hr

/-- Once set, the final-action flag is still set after `kill`. -/
theorem kill_keeps_flag (s : Cognigy) (h : s.reportedFinalAction = true) :
    (Cognigy.kill s).state.reportedFinalAction = true := by
  unfold Cognigy.kill
  rcases s.client with _ | c <;> rcases s.ep with _ | e <;>
    simp [h, Cognigy.hasReportedFinalAction]

/-- Once set, the final-action flag is still set after any handler. -/
theorem deliver_keeps_flag (s : Cognigy) (ev : Event) (h : s.reportedFinalAction = true) :
    (Cognigy.deliver s ev).state.reportedFinalAction = true := by
  have hmark : ∀ s : Cognigy, (Cognigy.markAndNotify s).state.reportedFinalAction = true :=
    fun _ => rfl
  have hfwd : ∀ (m : JVal) (b : Bool) (s : Cognigy), s.reportedFinalAction = true →
      (Cognigy.forwardToBot m b s).state.reportedFinalAction = true := by
    intro m b s hs
    unfold Cognigy.forwardToBot
    rcases s.client with _ | c
    · exact hs
    · by_cases hc : c.connected = true <;> cases b <;> simp [hc, hs, Step.andThen, hmark]
  have hcont : ∀ (b : Bool) (hk : HookOutcome) (s : Cognigy), s.reportedFinalAction = true →
      (Cognigy.hookContinuation b hk s).state.reportedFinalAction = true := by
    intro b hk s hs
    unfold Cognigy.hookContinuation
    split
    · split
      · rfl
      · exact hs
    · exact hs
  have hexh : ∀ s : Cognigy, (Cognigy.timeoutExhausted s).state.reportedFinalAction = true :=
    fun _ => rfl
  cases ev with
  | transcription u hk t =>
    simp only [Cognigy.deliver]
    split
    · unfold Cognigy._onTranscription
      refine andThen_keeps (fun s => s.reportedFinalAction = true) _ _ ?_ (hcont true hk)
      exact andThen_keeps (fun s => s.reportedFinalAction = true) _ _ h (hfwd _ t)
    · exact h
  | dtmf d t =>
    simp only [Cognigy.deliver]
    split
    · exact hfwd d t s h
    · exact h
  | timeout =>
    simp only [Cognigy.deliver]
    split
    · unfold Cognigy._onTimeout
      split
      · split
        · split
          · exact h
          · exact hexh _
        · exact hexh _
      · exact hexh _
    · exact h
  | error err =>
    simp only [Cognigy.deliver]
    split
    · rfl
    · exact h
  | botOutput evt hk f =>
    simp only [Cognigy.deliver]
    split
    · unfold Cognigy._onBotUtterance
      refine hcont false hk _ ?_
      refine andThen_keeps (fun s => s.reportedFinalAction = true) _ _ h ?_
      intro s1 h1
      unfold Cognigy.botUtteranceBody
      split
      · exact h1
      · refine andThen_keeps (fun s => s.reportedFinalAction = true) _ _ ?_ ?_
        · refine andThen_keeps (fun s => s.reportedFinalAction = true) _ _ h1 ?_
          intro s2 h2
          split
          · exact h2
          · exact h2
        · intro s2 h2
          have hctl : ∀ k r, (Cognigy.controlStep k r f s2).state.reportedFinalAction = true := by
            intro k r
            unfold Cognigy.controlStep
            cases f with
            | none =>
              simp only [Cognigy._enqueueTask, Cognigy.controlOp]
              refine andThen_keeps (fun s => s.reportedFinalAction = true) _ _ h2 ?_
              intro s3 h3
              refine andThen_keeps (fun s => s.reportedFinalAction = true) _ _ ?_ ?_
              · exact andThen_keeps (fun s => s.reportedFinalAction = true) _ _ h3
                  (fun s _ => hmark s)
              · intro s4 h4
                exact kill_keeps_flag s4 h4
            | some err =>
              exact andThen_keeps (fun s => s.reportedFinalAction = true) _ _
                (andThen_keeps (fun s => s.reportedFinalAction = true) _ _ h2 (fun s hs => hs))
                (fun s _ => hmark s)
          split
          · split
            · exact hctl _ _
            · exact hctl _ _
            · exact h2
          · exact h2
    · exact h
  | botError evt =>
    simp only [Cognigy.deliver]
    split
    · unfold Cognigy._onBotError
      split
      · exact h
      · rfl
    · exact h
  | finalPing =>
    simp only [Cognigy.deliver]
    split
    · exact h
    · exact h
  | kill => exact kill_keeps_flag s h

/-- The final-action flag never changes back: once set it is set after every
sequence of events. -/
theorem run_keeps_flag (evs : List Event) :
    ∀ s : Cognigy, s.reportedFinalAction = true →
      (Cognigy.run s evs).1.reportedFinalAction = true := by
  induction evs with
  | nil => intro s h; exact h
  | cons ev rest ih =>
    intro s h
    exact ih _ (deliver_keeps_flag s ev h)

/-- C2 (defect of the code): after `_onError` has reported `error` and set the
final-action flag, `_onBotError` reports `botError` all the same, so two final
actions go through `performAction` for one instance. -/
theorem final_action_reported_twice :
    (Cognigy.deliver activeInstance (.error (.str "boom"))).state.reportedFinalAction = true ∧
    (Cognigy.run activeInstance
        [.error (.str "boom"), .botError (.obj [("message", .str "lost")])]).2.filter
      Effect.isReport =
      [.performAction (.obj [("cognigyResult", .str "error"), ("err", .str "boom")]) .undefined,
       .performAction (.obj [("cognigyResult", .str "botError"), ("message", .str "lost")])
         .undefined] := by
  exact ⟨rfl, rfl⟩

/-! ### No-input timeouts -/

/-- The state and effects of a gather step in one piece. -/
theorem gatherStep_eq (textPrompt urlPrompt : JVal) (s : Cognigy) :
    Cognigy.gatherStep textPrompt urlPrompt s =
      { state := { s with retry := s.configRetry, gatherTask := some (textPrompt, urlPrompt) },
        trace := [.makeGather textPrompt urlPrompt, .gatherExec],
        raised := none } := rfl

/-- Below the limit `_onTimeout` increments the counter and makes a gather step. -/
theorem onTimeout_below (s : Cognigy) (N : Nat) (hN : 1 ≤ N)
    (hpolicy : s.retry.noInputRetries = some N) (hlt : s.timeoutCount < N) :
    Cognigy._onTimeout s =
      Cognigy.gatherStep s.retry.noInputSpeech s.retry.noInputUrl
        { s with timeoutCount := s.timeoutCount + 1 } := by
  have h0 : N ≠ 0 := by omega
  simp [Cognigy._onTimeout, hpolicy, h0, hlt]

/-- At the limit `_onTimeout` increments the counter and takes the final branch. -/
theorem onTimeout_reached (s : Cognigy) (N : Nat) (hN : 1 ≤ N)
    (hpolicy : s.retry.noInputRetries = some N) (hge : N ≤ s.timeoutCount) :
    Cognigy._onTimeout s =
      Cognigy.timeoutExhausted { s with timeoutCount := s.timeoutCount + 1 } := by
  have h0 : N ≠ 0 := by omega
  have h1 : ¬ s.timeoutCount < N := by omega
  simp [Cognigy._onTimeout, hpolicy, h0, h1]

/-- During the first `N` timeouts the policy and the reporting status stay as they
were and the counter counts the timeouts. -/
theorem afterTimeouts_invariant (s : Cognigy) (N : Nat) (hN : 1 ≤ N)
    (hpolicy : s.retry.noInputRetries = some N) (hfixed : s.configRetry = s.retry)
    (hcount : s.timeoutCount = 0) :
    ∀ k, k ≤ N →
      (afterTimeouts k s).retry = s.retry ∧ (afterTimeouts k s).configRetry = s.retry ∧
      (afterTimeouts k s).timeoutCount = k ∧
      (afterTimeouts k s).hasReportedFinalAction = s.hasReportedFinalAction := by
  intro k
  induction k with
  | zero => intro _; simp [afterTimeouts, hfixed, hcount]
  | succ k ih =>
    intro hk
    obtain ⟨h1, h2, h3, h4⟩ := ih (by omega)
    have hp : (afterTimeouts k s).retry.noInputRetries = some N := by rw [h1]; exact hpolicy
    have hlt : (afterTimeouts k s).timeoutCount < N := by omega
    simp only [afterTimeouts]
    rw [onTimeout_below _ N hN hp hlt]
    simp [gatherStep_eq, h1, h2, h3, Cognigy.hasReportedFinalAction] 
    simpa [Cognigy.hasReportedFinalAction] using h4

/-- C3 (counterexample): on an instance whose event hook has redirected the call
and whose policy allows two retries, the third timeout in a row reports nothing:
the final action `redirect` was reported before, and `_onTimeout` tests
`hasReportedFinalAction` before it reports `timeout`. -/
theorem third_timeout_silent_after_redirect :
    redirectedInstance.retry.noInputRetries = some 2 ∧
    redirectedInstance.configRetry = redirectedInstance.retry ∧
    redirectedInstance.timeoutCount = 0 ∧
    redirectedInstance.reportedFinalAction = true ∧
    (Cognigy._onTimeout (afterTimeouts 2 redirectedInstance)).trace = [.notifyTaskDone] := by
  exact ⟨rfl, rfl, rfl, rfl, rfl⟩

/-- C3 (amended): with `noInputRetries = N ≥ 1`, a policy that stays in force
and the counter at 0, each of the first `N` timeouts makes one gather step from
`noInputSpeech` and `noInputUrl` and nothing else; timeout `N + 1` makes no
gather step, reports `timeout` exactly when no final action counts as reported
yet, and in both cases sets the final-action flag and signals completion. -/
theorem timeouts_reprompt_then_report (s : Cognigy) (N : Nat) (hN : 1 ≤ N)
    (hpolicy : s.retry.noInputRetries = some N) (hfixed : s.configRetry = s.retry)
    (hcount : s.timeoutCount = 0) :
    (∀ k, k < N → (Cognigy._onTimeout (afterTimeouts k s)).trace =
        [.makeGather s.retry.noInputSpeech s.retry.noInputUrl, .gatherExec]) ∧
    (Cognigy._onTimeout (afterTimeouts N s)).trace =
        (if s.hasReportedFinalAction then []
         else [.performAction (cognigyResult "timeout") .undefined]) ++ [.notifyTaskDone] ∧
    (Cognigy._onTimeout (afterTimeouts N s)).state.reportedFinalAction = true ∧
    (Cognigy._onTimeout (afterTimeouts N s)).state.completionResolved = true := by
  have inv := afterTimeouts_invariant s N hN hpolicy hfixed hcount
  refine ⟨?_, ?_, ?_, ?_⟩
  · intro k hk
    obtain ⟨h1, _, h3, _⟩ := inv k (by omega)
    have hp : (afterTimeouts k s).retry.noInputRetries = some N := by rw [h1]; exact hpolicy
    rw [onTimeout_below _ N hN hp (by omega)]
    simp [gatherStep_eq, h1]
  all_goals
    obtain ⟨h1, _, h3, h4⟩ := inv N (le_refl N)
    have hp : (afterTimeouts N s).retry.noInputRetries = some N := by rw [h1]; exact hpolicy
    rw [onTimeout_reached _ N hN hp (by omega)]
    have h5 : Cognigy.hasReportedFinalAction
        { afterTimeouts N s with timeoutCount := (afterTimeouts N s).timeoutCount + 1 } =
        s.hasReportedFinalAction := h4
    simp [Cognigy.timeoutExhausted, Cognigy.reportUnlessReported, Cognigy.markAndNotify,
      Cognigy.notifyTaskDone, Task.notifyTaskDone, Step.andThen, h5]

/-- C3 (amended) at `N = 2` on an instance armed by a final ping. -/
theorem timeouts_reprompt_then_report_witness :
    (1 ≤ 2 ∧ pingedInstance.retry.noInputRetries = some 2 ∧
      pingedInstance.configRetry = pingedInstance.retry ∧ pingedInstance.timeoutCount = 0) ∧
    ((∀ k, k < 2 → (Cognigy._onTimeout (afterTimeouts k pingedInstance)).trace =
        [.makeGather pingedInstance.retry.noInputSpeech pingedInstance.retry.noInputUrl,
         .gatherExec]) ∧
    (Cognigy._onTimeout (afterTimeouts 2 pingedInstance)).trace =
        (if pingedInstance.hasReportedFinalAction then []
         else [.performAction (cognigyResult "timeout") .undefined]) ++ [.notifyTaskDone] ∧
    (Cognigy._onTimeout (afterTimeouts 2 pingedInstance)).state.reportedFinalAction = true ∧
    (Cognigy._onTimeout (afterTimeouts 2 pingedInstance)).state.completionResolved = true) :=
  ⟨⟨by decide, rfl, rfl, rfl⟩,
   timeouts_reprompt_then_report pingedInstance 2 (by decide) rfl rfl rfl⟩

/-! ### Bot replies -/

/-- The effects of `kill` depend only on the four things it reads. -/
theorem kill_trace_eq (s : Cognigy) :
    (Cognigy.kill s).trace =
      killEffects s.transcribeTask s.client s.hasReportedFinalAction s.ep := by
  unfold Cognigy.kill killEffects
  rcases hc : s.client with _ | c <;> rcases he : s.ep with _ | e <;> simp

/-- No effect of `kill` makes a say or gather step. -/
theorem kill_trace_no_audio (s : Cognigy) :
    (Cognigy.kill s).trace.all (fun e => !e.isCallerAudio) = true := by
  rcases s with ⟨t, data, eventHook, rfa, ira, prompts, retry, tc, listeners, client, ep, tt,
    gt, qe, cr⟩
  rcases client with _ | ⟨_ | _, cl⟩ <;> rcases ep with _ | ⟨_ | _⟩ <;> cases tt <;> cases rfa <;>
    cases ira <;> rfl

/-- No effect of the event hook's callback makes a say or gather step. -/
theorem hookContinuation_no_audio (b : Bool) (hook : HookOutcome) (s : Cognigy) :
    (Cognigy.hookContinuation b hook s).trace.all (fun e => !e.isCallerAudio) = true := by
  unfold Cognigy.hookContinuation
  split
  · split
    · cases b <;> cases s.transcribeTask <;> rfl
    · rfl
  · rfl

/-- A hangup reply has no spoken text. -/
theorem parseBotText_hangupReply (R : JVal) : parseBotText (hangupReply R) = .ok .undefined := by
  rfl

/-- C4: the reply `(data: (type: 'hangup', reason: R))` makes the hangup step
with reason `R`, then reports `hangup Succeeded`, then signals completion, in
this order and next to each other; nothing before them and nothing after them
makes a say or gather step. -/
theorem hangup_reply_order (s : Cognigy) (R : JVal) (hook : HookOutcome) :
    ∃ pre post,
      (Cognigy._onBotUtterance s (hangupReply R) hook none).trace =
        pre ++ [.makeTask "hangup" (.obj [("headers", .obj [("X-REASON", R)])]),
                .performAction (cognigyResult "hangup Succeeded") .undefined,
                .notifyTaskDone] ++ post ∧
      pre.all (fun e => !e.isCallerAudio && !e.isReport && !e.isDone) = true ∧
      post.all (fun e => !e.isCallerAudio) = true := by
  refine ⟨(Cognigy.callEventHook "botMessage" (hangupReply R) s).trace ++
      [.configUpdate (.obj [("type", .str "hangup"), ("reason", R)]), .queuePush],
    (Cognigy.kill { s with reportedFinalAction := true, completionResolved := true }).trace ++
      (Cognigy.hookContinuation false hook
        (Cognigy.kill { s with reportedFinalAction := true, completionResolved := true }).state).trace,
    ?_, ?_, ?_⟩
  · simp only [Cognigy._onBotUtterance, Cognigy.botUtteranceBody, parseBotText_hangupReply,
      Step.andThen, Cognigy.callEventHook]
    simp [hangupReply, JVal.getOpt, JVal.truthy, Step.andThen,
      Cognigy.controlStep, Cognigy._enqueueTask, Cognigy.controlOp, Cognigy.markAndNotify,
      Cognigy._makeHangupTask, Task.notifyTaskDone,
      Cognigy.notifyTaskDone, Cognigy.killDetached, List.lookup]
  · simp only [Cognigy.callEventHook]
    split <;> rfl
  · rw [List.all_append, kill_trace_no_audio, hookContinuation_no_audio]
    rfl

/-- A reply with a non-empty text field has that text as spoken text. -/
theorem parseBotText_text (props : List (String × JVal)) (t : String) (ht : t ≠ "")
    (htext : props.lookup "text" = some (.str t)) :
    parseBotText (.obj props) = .ok (.str t) := by
  simp [parseBotText, JVal.get, htext, JVal.truthy, ht]

/-- C5 (counterexample): with an event hook that signals redirect, the reply
`(text: 'Hello')` without type does report a final action, `redirect`, and sets
the final-action flag. -/
theorem text_reply_redirect_reports :
    hookedInstance.reportedFinalAction = false ∧
    (Cognigy._onBotUtterance hookedInstance (.obj [("text", .str "Hello")]) (.resolved true)
        none).trace.filter Effect.isReport =
      [.performAction (cognigyResult "redirect") (.bool false)] ∧
    (Cognigy._onBotUtterance hookedInstance (.obj [("text", .str "Hello")]) (.resolved true)
        none).state.reportedFinalAction = true := by
  exact ⟨rfl, rfl, rfl⟩

/-- C5 (amended): when no event hook is configured or the hook does not signal
redirect, a reply with the non-empty text `t` and no `data.type` makes exactly
one say step, with text `t`, reports no final action, leaves the final-action
flag as it was, does not signal completion and does not throw. -/
theorem text_reply_says_once (s : Cognigy) (props : List (String × JVal)) (t : String)
    (hook : HookOutcome) (failure : Option JVal) (ht : t ≠ "")
    (htext : props.lookup "text" = some (.str t))
    (htype : ((JVal.obj props).getOpt "data").getOpt "type" = .undefined)
    (hhook : s.eventHook.truthy = false ∨ hook ≠ .resolved true) :
    (Cognigy._onBotUtterance s (.obj props) hook failure).trace.filter Effect.isSay =
      [.makeTask "say" (.obj [("text", .str t),
        ("synthesizer", if (s.data.getOpt "synthesizer").truthy then s.data.getOpt "synthesizer"
                        else defaultSynthesizer)])] ∧
    (Cognigy._onBotUtterance s (.obj props) hook failure).trace.filter Effect.isReport = [] ∧
    (Cognigy._onBotUtterance s (.obj props) hook failure).trace.filter Effect.isDone = [] ∧
    (Cognigy._onBotUtterance s (.obj props) hook failure).state.reportedFinalAction =
      s.reportedFinalAction ∧
    (Cognigy._onBotUtterance s (.obj props) hook failure).state.completionResolved =
      s.completionResolved ∧
    (Cognigy._onBotUtterance s (.obj props) hook failure).raised = none := by
  have hcont : Cognigy.hookContinuation false hook s = { state := s, trace := [], raised := none } := by
    unfold Cognigy.hookContinuation
    rcases hhook with h | h
    · simp [h]
    · split
      · split
        · exact absurd rfl h
        · rfl
      · rfl
  have hbody : Cognigy.botUtteranceBody (.obj props) failure s =
      { state := s,
        trace := (if ((JVal.obj props).getOpt "data").truthy
                  then [.configUpdate ((JVal.obj props).getOpt "data")] else []) ++
          [.queuePush, .makeTask "say" (.obj [("text", .str t),
            ("synthesizer", if (s.data.getOpt "synthesizer").truthy
                            then s.data.getOpt "synthesizer" else defaultSynthesizer)])],
        raised := none } := by
    simp only [Cognigy.botUtteranceBody, parseBotText_text props t ht htext, htype]
    simp [Step.andThen, JVal.truthy, ht, Cognigy._enqueueTask, Cognigy.sayOp,
      Cognigy._makeSayTask]
  simp only [Cognigy._onBotUtterance, Cognigy.callEventHook, Step.andThen, hbody, hcont]
  by_cases h1 : s.eventHook.truthy = true <;>
    by_cases h2 : ((JVal.obj props).getOpt "data").truthy = true <;>
    simp [h1, h2, Effect.isSay, Effect.isReport, Effect.isDone]

/-- C5 (amended) on the reply `(text: 'Hello')` and an instance without event hook. -/
theorem text_reply_says_once_witness :
    ("Hello" ≠ "" ∧
      [("text", JVal.str "Hello")].lookup "text" = some (.str "Hello") ∧
      ((JVal.obj [("text", .str "Hello")]).getOpt "data").getOpt "type" = .undefined ∧
      (activeInstance.eventHook.truthy = false ∨ HookOutcome.rejected ≠ .resolved true)) ∧
    ((Cognigy._onBotUtterance activeInstance (.obj [("text", .str "Hello")]) .rejected
        none).trace.filter Effect.isSay =
      [.makeTask "say" (.obj [("text", .str "Hello"),
        ("synthesizer", if (activeInstance.data.getOpt "synthesizer").truthy
                        then activeInstance.data.getOpt "synthesizer"
                        else defaultSynthesizer)])] ∧
    (Cognigy._onBotUtterance activeInstance (.obj [("text", .str "Hello")]) .rejected
        none).trace.filter Effect.isReport = [] ∧
    (Cognigy._onBotUtterance activeInstance (.obj [("text", .str "Hello")]) .rejected
        none).trace.filter Effect.isDone = [] ∧
    (Cognigy._onBotUtterance activeInstance (.obj [("text", .str "Hello")]) .rejected
        none).state.reportedFinalAction = activeInstance.reportedFinalAction ∧
    (Cognigy._onBotUtterance activeInstance (.obj [("text", .str "Hello")]) .rejected
        none).state.completionResolved = activeInstance.completionResolved ∧
    (Cognigy._onBotUtterance activeInstance (.obj [("text", .str "Hello")]) .rejected
        none).raised = none) :=
  ⟨⟨by decide, rfl, rfl, Or.inl rfl⟩,
   text_reply_says_once activeInstance [("text", .str "Hello")] "Hello" .rejected none
      (by decide) rfl rfl (Or.inl rfl)⟩

/-! ### Spoken text of a reply -/

/-- On a value that is not nullish a plain read and an optional read agree. -/
theorem get_eq_getOpt (v w : JVal) (key : String) (h : v.get key = .ok w) :
    w = v.getOpt key := by
  cases v <;> simp [JVal.get, JVal.getOpt] at h ⊢ <;> exact h.symm

/-- An optional read on `undefined` gives `undefined`. -/
theorem getOpt_undefined (key : String) : JVal.undefined.getOpt key = .undefined := rfl

/-- An optional read on a falsy value gives `undefined`. -/
theorem getOpt_of_not_truthy (v : JVal) (key : String) (h : v.truthy = false) :
    v.getOpt key = .undefined := by
  cases v <;> simp [JVal.getOpt, JVal.truthy] at h ⊢

/-- Where `parseQuickReplies` returns, it returns the text of the quick replies
or, when that is empty, their fallback text. -/
theorem parseQuickReplies_ok (c v : JVal) (h : parseQuickReplies c = .ok v) :
    v = (if (((c.getOpt "_default").getOpt "_quickReplies").getOpt "text").truthy
         then ((c.getOpt "_default").getOpt "_quickReplies").getOpt "text"
         else ((c.getOpt "_default").getOpt "_quickReplies").getOpt "fallbackText") := by
  unfold parseQuickReplies at h
  split at h
  · exact absurd h (by simp)
  · rename_i dflt hd
    have hd2 := get_eq_getOpt _ _ _ hd
    subst hd2
    by_cases h1 : (c.getOpt "_default").truthy = true
    · by_cases h2 : ((c.getOpt "_default").getOpt "_quickReplies").truthy = true
      · by_cases h3 : (((c.getOpt "_default").getOpt "_quickReplies").getOpt "text").truthy = true
        · simp only [h1, h2, h3, if_true] at h ⊢
          exact (Except.ok.inj h).symm
        · simp only [h1, h2, h3, if_true] at h ⊢
          exact (Except.ok.inj h).symm
      · have h2f : ((c.getOpt "_default").getOpt "_quickReplies").truthy = false := by
          simpa using h2
        simp only [h1, h2f, if_true] at h
        rw [getOpt_of_not_truthy _ "text" h2f, getOpt_of_not_truthy _ "fallbackText" h2f]
        simpa [JVal.truthy] using (Except.ok.inj h).symm
    · have h1f : (c.getOpt "_default").truthy = false := by simpa using h1
      simp only [h1f] at h
      rw [getOpt_of_not_truthy _ "_quickReplies" h1f, getOpt_undefined, getOpt_undefined]
      simpa [JVal.truthy] using (Except.ok.inj h).symm

/-- The part of `parseGallery` after the default parameter was applied. -/
theorem gallery_read_ok (o v : JVal)
    (h : (if (o.getOpt "_default").truthy = true then
        if ((o.getOpt "_default").getOpt "_gallery").truthy = true then
          Except.ok (((o.getOpt "_default").getOpt "_gallery").getOpt "fallbackText")
        else Except.ok JVal.undefined
      else (Except.ok JVal.undefined : Except JSError JVal)) = .ok v) :
    v = ((o.getOpt "_default").getOpt "_gallery").getOpt "fallbackText" := by
  by_cases h1 : (o.getOpt "_default").truthy = true
  · by_cases h2 : ((o.getOpt "_default").getOpt "_gallery").truthy = true
    · simp only [h1, h2, if_true] at h
      exact (Except.ok.inj h).symm
    · have h2f : ((o.getOpt "_default").getOpt "_gallery").truthy = false := by simpa using h2
      simp only [h1, h2f, if_true] at h
      rw [getOpt_of_not_truthy _ "fallbackText" h2f]
      simpa using (Except.ok.inj h).symm
  · have h1f : (o.getOpt "_default").truthy = false := by simpa using h1
    simp only [h1f] at h
    rw [getOpt_of_not_truthy _ "_gallery" h1f, getOpt_undefined]
    simpa using (Except.ok.inj h).symm

/-- Where `parseGallery` returns, it returns the fallback text of the gallery. -/
theorem parseGallery_ok (c v : JVal) (h : parseGallery c = .ok v) :
    v = ((c.getOpt "_default").getOpt "_gallery").getOpt "fallbackText" := by
  unfold parseGallery at h
  cases c with
  | undefined =>
    simp [JVal.get, JVal.truthy] at h
    simp [JVal.getOpt, ← h]
  | null => simp [JVal.get] at h
  | bool b => simp [JVal.get, JVal.truthy] at h; simp [JVal.getOpt, ← h]
  | num n => simp [JVal.get, JVal.truthy] at h; simp [JVal.getOpt, ← h]
  | str s => simp [JVal.get, JVal.truthy] at h; simp [JVal.getOpt, ← h]
  | arr xs => simp [JVal.get, JVal.truthy] at h; simp [JVal.getOpt, ← h]
  | obj props =>
    apply gallery_read_ok
    simpa [JVal.get, JVal.getOpt] using h

/-- Wherever `parseBotText` returns, its result is the one the dispatch of the
specification gives. -/
theorem parseBotText_agrees_where_it_returns (evt v : JVal) (h : parseBotText evt = .ok v) :
    v = specBotText evt := by
  unfold parseBotText at h
  split at h
  · rename_i text data ht hd
    have ht2 := get_eq_getOpt _ _ _ ht
    have hd2 := get_eq_getOpt _ _ _ hd
    subst ht2 hd2
    unfold specBotText
    by_cases h1 : (evt.getOpt "text").truthy = true
    · rw [if_pos h1] at h ⊢
      exact (Except.ok.inj h).symm
    · rw [if_neg h1] at h ⊢
      split at h
      · exact parseQuickReplies_ok _ _ h
      · exact parseGallery_ok _ _ h
      · exact (Except.ok.inj h).symm
  · exact absurd h (by simp)
  · exact absurd h (by simp)

/-- C6 (defect of the code): on a reply of type `quickReplies` that has no
`_cognigy` payload `parseBotText` throws a `TypeError` where the dispatch of the
specification gives no text; the sibling `parseGallery` has a default parameter
and returns no text on the same shape. -/
theorem parseBotText_throws_on_bare_quickReplies :
    parseBotText bareQuickReplies = .error .typeError ∧
    specBotText bareQuickReplies = .undefined ∧
    parseBotText bareGallery = .ok .undefined := by
  exact ⟨rfl, rfl, rfl⟩

/-! ### Teardown -/

/-- C7 (counterexample): while the call session is replacing the application,
`kill()` reports nothing although no final action was reported before. -/
theorem kill_silent_while_replacing :
    replacingInstance.reportedFinalAction = false ∧
    (Cognigy.kill replacingInstance).raised = none ∧
    (Cognigy.kill replacingInstance).trace.filter Effect.isReport = [] := by
  exact ⟨rfl, rfl, rfl⟩

/-- Among the effects of `kill` there is at most one report, and none when the
channel is missing or a final action counts as reported. -/
theorem killEffects_reports (tt : Bool) (client : Option Client) (reported : Bool)
    (ep : Option Endpoint) :
    ((killEffects tt client reported ep).filter Effect.isReport).length ≤ 1 ∧
    (client = none ∨ reported = true →
      (killEffects tt client reported ep).filter Effect.isReport = []) := by
  rcases client with _ | ⟨_ | _, cl⟩ <;> rcases ep with _ | ⟨_ | _⟩ <;> cases tt <;>
    cases reported <;> simp [killEffects, Effect.isReport]

/-- After `kill` the channel is still missing or a final action counts as reported. -/
theorem kill_state_settled (s : Cognigy) :
    (Cognigy.kill s).state.client = none ∨
      (Cognigy.kill s).state.hasReportedFinalAction = true := by
  unfold Cognigy.kill
  rcases hc : s.client with _ | c
  · left
    simp
  · right
    rcases he : s.ep with _ | e <;> by_cases hr : s.hasReportedFinalAction = true <;>
      simp [hr] <;> simp_all [Cognigy.hasReportedFinalAction]

/-- The reports of one `kill()` call and the state it leaves. -/
theorem kill_report_cases (s : Cognigy) :
    ((Cognigy.kill s).trace.filter Effect.isReport).length ≤ 1 ∧
    ((Cognigy.kill s).state.client = none ∨
      (Cognigy.kill s).state.hasReportedFinalAction = true) ∧
    (s.client = none ∨ s.hasReportedFinalAction = true →
      (Cognigy.kill s).trace.filter Effect.isReport = []) := by
  rw [kill_trace_eq]
  exact ⟨(killEffects_reports _ _ _ _).1, kill_state_settled s, (killEffects_reports _ _ _ _).2⟩

/-- Repeated `kill()` calls report nothing once the channel is missing or a final
action counts as reported. -/
theorem kills_silent_once_reported :
    ∀ (n : Nat) (s : Cognigy), (s.client = none ∨ s.hasReportedFinalAction = true) →
      (Cognigy.run s (List.replicate n .kill)).2.filter Effect.isReport = [] := by
  intro n
  induction n with
  | zero => intro s _; rfl
  | succ n ih =>
    intro s h
    obtain ⟨_, h2, h3⟩ := kill_report_cases s
    simp only [List.replicate_succ, Cognigy.run, Cognigy.deliver, List.filter_append]
    rw [h3 h, ih _ h2]
    rfl

/-- C7 (amended): on an instance that `exec` has bound to its channel, `kill()`
reports `caller hungup` exactly when `hasReportedFinalAction` is false, that is
when the final-action flag is not set and the session is not replacing the
application; it reports nothing when `hasReportedFinalAction` is true; and over
any number of `kill()` calls it reports at most once. -/
theorem kill_reports_caller_hungup (s : Cognigy) (n : Nat) (hbound : s.client.isSome = true) :
    ((Cognigy.kill s).trace.filter Effect.isReport =
        [.performAction (cognigyResult "caller hungup") .undefined] ↔
      s.hasReportedFinalAction = false) ∧
    (s.hasReportedFinalAction = true → (Cognigy.kill s).trace.filter Effect.isReport = []) ∧
    ((Cognigy.run s (List.replicate n .kill)).2.filter Effect.isReport).length ≤ 1 := by
  refine ⟨?_, ?_, ?_⟩
  · rw [kill_trace_eq]
    rcases hc : s.client with _ | c
    · simp [hc] at hbound
    · generalize s.hasReportedFinalAction = reported
      generalize s.transcribeTask = tt
      rcases c with ⟨_ | _, cl⟩ <;> rcases s.ep with _ | ⟨_ | _⟩ <;> cases tt <;>
        cases reported <;> simp [killEffects, Effect.isReport]
  · intro h
    exact (kill_report_cases s).2.2 (Or.inr h)
  · cases n with
    | zero => simp [Cognigy.run]
    | succ n =>
      obtain ⟨h1, h2, _⟩ := kill_report_cases s
      simp only [List.replicate_succ, Cognigy.run, Cognigy.deliver, List.filter_append,
        List.length_append]
      rw [kills_silent_once_reported n _ h2]
      simpa using h1

/-- C7 (amended) on a connected instance killed three times. -/
theorem kill_reports_caller_hungup_witness :
    activeInstance.client.isSome = true ∧
    (((Cognigy.kill activeInstance).trace.filter Effect.isReport =
        [.performAction (cognigyResult "caller hungup") .undefined] ↔
      activeInstance.hasReportedFinalAction = false) ∧
    (activeInstance.hasReportedFinalAction = true →
      (Cognigy.kill activeInstance).trace.filter Effect.isReport = []) ∧
    ((Cognigy.run activeInstance (List.replicate 3 .kill)).2.filter Effect.isReport).length ≤ 1) :=
  ⟨rfl, kill_reports_caller_hungup activeInstance 3 rfl⟩

/-- The effects of `kill` come in strictly increasing rank. -/
theorem killEffects_ranked (tt : Bool) (client : Option Client) (reported : Bool)
    (ep : Option Endpoint) :
    ((killEffects tt client reported ep).map Effect.killRank).Pairwise (fun a b => a < b) := by
  rcases client with _ | ⟨_ | _, cl⟩ <;> rcases ep with _ | ⟨_ | _⟩ <;> cases tt <;>
    cases reported <;> simp [killEffects, Effect.killRank]

/-- Every effect of `kill` is one of the steps of the teardown. -/
theorem killEffects_known (tt : Bool) (client : Option Client) (reported : Bool)
    (ep : Option Endpoint) :
    ∀ e ∈ killEffects tt client reported ep, e.killRank ≠ 0 := by
  rcases client with _ | ⟨_ | _, cl⟩ <;> rcases ep with _ | ⟨_ | _⟩ <;> cases tt <;>
    cases reported <;> simp [killEffects, Effect.killRank]

/-- The only report of `kill` is `caller hungup`, made when nothing counted as reported. -/
theorem killEffects_report (tt : Bool) (client : Option Client) (reported : Bool)
    (ep : Option Endpoint) :
    ∀ e ∈ killEffects tt client reported ep, e.isReport = true →
      e = .performAction (cognigyResult "caller hungup") .undefined ∧ reported = false := by
  rcases client with _ | ⟨_ | _, cl⟩ <;> rcases ep with _ | ⟨_ | _⟩ <;> cases tt <;>
    cases reported <;> simp [killEffects, Effect.isReport]

/-- When `kill` closes the queue, both detachments come before. -/
theorem killEffects_queue_closed_late (tt : Bool) (client : Option Client) (reported : Bool)
    (ep : Option Endpoint) (h : Effect.queueEnd ∈ killEffects tt client reported ep) :
    ∃ pre post, killEffects tt client reported ep = pre ++ Effect.queueEnd :: post ∧
      Effect.removeAllListeners ∈ pre ∧ Effect.clientRemoveAllListeners ∈ pre := by
  rcases client with _ | c
  · cases tt <;> simp [killEffects] at h
  · clear h
    refine ⟨[.removeAllListeners] ++ (if tt then [.transcribeKill] else []) ++
        [.clientRemoveAllListeners] ++ (if c.connected then [.clientDisconnect] else []),
      (if reported then [] else [.performAction (cognigyResult "caller hungup") .undefined]) ++
        (match ep with
         | none => []
         | some e => (if e.connected then [.uuidBreak] else []) ++ [.notifyTaskDone]),
      ?_, ?_, ?_⟩
    · simp only [killEffects, List.append_assoc, List.singleton_append, List.cons_append,
        List.nil_append]
    · simp
    · simp

/-- On an instance bound to channel and endpoint `kill` runs to the end. -/
theorem kill_runs_to_end (s : Cognigy) (hc : s.client.isSome = true) (he : s.ep.isSome = true) :
    (Cognigy.kill s).raised = none ∧
    Effect.removeAllListeners ∈ (Cognigy.kill s).trace ∧
    Effect.clientRemoveAllListeners ∈ (Cognigy.kill s).trace ∧
    Effect.queueEnd ∈ (Cognigy.kill s).trace ∧
    Effect.notifyTaskDone ∈ (Cognigy.kill s).trace := by
  rw [kill_trace_eq]
  rcases hcl : s.client with _ | c
  · simp [hcl] at hc
  rcases hep : s.ep with _ | e
  · simp [hep] at he
  refine ⟨?_, ?_, ?_, ?_, ?_⟩
  · simp [Cognigy.kill, hcl, hep]
  all_goals simp [killEffects]

/-- C8 (counterexample): on an executing instance that has reported nothing
while the call session is replacing the application, `kill()` makes the steps
(1) to (4), (6) and (7) and leaves out step (5): `caller hungup` is not
reported although nothing was reported. -/
theorem kill_order_without_report :
    replacingListeningInstance.reportedFinalAction = false ∧
    (Cognigy.kill replacingListeningInstance).trace =
      [.removeAllListeners, .transcribeKill, .clientRemoveAllListeners, .clientDisconnect,
       .queueEnd, .uuidBreak, .notifyTaskDone] ∧
    (Cognigy.kill replacingListeningInstance).raised = none := by
  exact ⟨rfl, rfl, rfl⟩

/-- C8 (amended): on an instance bound to its channel and endpoint the effects of
`kill()` are exactly these, in this order: own listeners detached; the listening
step stopped, when there is one; channel listeners detached; the channel
disconnected, when it is connected; the queue closed; `caller hungup` reported,
exactly when `hasReportedFinalAction` is false; audio halted, when the endpoint
is connected; completion signaled; and nothing is raised.  Before `exec` bound
the channel or the endpoint the execution makes the same effects up to the read
that throws.  In every execution the effects come in the fixed order, no other
effect is made, the only report is `caller hungup`, and the queue is closed only
after both detachments. -/
theorem kill_effects_in_order (s : Cognigy) :
    (∀ c e, s.client = some c → s.ep = some e →
      (Cognigy.kill s).trace =
        [.removeAllListeners] ++ (if s.transcribeTask then [.transcribeKill] else []) ++
          [.clientRemoveAllListeners] ++ (if c.connected then [.clientDisconnect] else []) ++
          [.queueEnd] ++
          (if s.hasReportedFinalAction then []
           else [.performAction (cognigyResult "caller hungup") .undefined]) ++
          (if e.connected then [.uuidBreak] else []) ++ [.notifyTaskDone] ∧
      (Cognigy.kill s).raised = none) ∧
    (∀ c, s.client = some c → s.ep = none →
      (Cognigy.kill s).trace =
        [.removeAllListeners] ++ (if s.transcribeTask then [.transcribeKill] else []) ++
          [.clientRemoveAllListeners] ++ (if c.connected then [.clientDisconnect] else []) ++
          [.queueEnd] ++
          (if s.hasReportedFinalAction then []
           else [.performAction (cognigyResult "caller hungup") .undefined]) ∧
      (Cognigy.kill s).raised = some .typeError) ∧
    (s.client = none →
      (Cognigy.kill s).trace =
        [.removeAllListeners] ++ (if s.transcribeTask then [.transcribeKill] else []) ∧
      (Cognigy.kill s).raised = some .typeError) ∧
    (s.client.isSome = true →
      (Effect.performAction (cognigyResult "caller hungup") .undefined ∈ (Cognigy.kill s).trace ↔
        s.hasReportedFinalAction = false)) ∧
    ((Cognigy.kill s).trace.map Effect.killRank).Pairwise (fun a b => a < b) ∧
    (∀ e ∈ (Cognigy.kill s).trace, e.killRank ≠ 0) ∧
    (∀ e ∈ (Cognigy.kill s).trace, e.isReport = true →
      e = .performAction (cognigyResult "caller hungup") .undefined ∧
      s.hasReportedFinalAction = false) ∧
    (Effect.queueEnd ∈ (Cognigy.kill s).trace →
      ∃ pre post, (Cognigy.kill s).trace = pre ++ Effect.queueEnd :: post ∧
        Effect.removeAllListeners ∈ pre ∧ Effect.clientRemoveAllListeners ∈ pre) ∧
    (s.client.isSome = true → s.ep.isSome = true →
      (Cognigy.kill s).raised = none ∧
      Effect.removeAllListeners ∈ (Cognigy.kill s).trace ∧
      Effect.clientRemoveAllListeners ∈ (Cognigy.kill s).trace ∧
      Effect.queueEnd ∈ (Cognigy.kill s).trace ∧
      Effect.notifyTaskDone ∈ (Cognigy.kill s).trace) := by
  refine ⟨?_, ?_, ?_, ?_, ?_⟩
  · intro c e hc he
    refine ⟨?_, by simp [Cognigy.kill, hc, he]⟩
    rw [kill_trace_eq, hc, he]
    simp [killEffects]
  · intro c hc he
    refine ⟨?_, by simp [Cognigy.kill, hc, he]⟩
    rw [kill_trace_eq, hc, he]
    simp [killEffects]
  · intro hc
    refine ⟨?_, by simp [Cognigy.kill, hc]⟩
    rw [kill_trace_eq, hc]
    simp [killEffects]
  · intro hc
    rw [kill_trace_eq]
    rcases hcl : s.client with _ | c
    · simp [hcl] at hc
    · rcases s.ep with _ | e <;> cases s.transcribeTask <;> cases c.connected <;>
        by_cases hr : s.hasReportedFinalAction = true <;> simp [killEffects, hr]
  · rw [kill_trace_eq]
    exact ⟨killEffects_ranked _ _ _ _, killEffects_known _ _ _ _, killEffects_report _ _ _ _,
      killEffects_queue_closed_late _ _ _ _,
      fun hc he => by simpa [kill_trace_eq] using kill_runs_to_end s hc he⟩

/-- C8 (amended) on an executing instance with a listening step in flight that
has reported nothing: all seven steps are made. -/
theorem kill_effects_in_order_witness :
    (listeningInstance.client = some { connected := true, listeners := true } ∧
      listeningInstance.ep = some { connected := true }) ∧
    (Cognigy.kill listeningInstance).trace =
      [.removeAllListeners, .transcribeKill, .clientRemoveAllListeners, .clientDisconnect,
       .queueEnd, .performAction (cognigyResult "caller hungup") .undefined, .uuidBreak,
       .notifyTaskDone] ∧
    (Cognigy.kill listeningInstance).raised = none :=
  ⟨⟨rfl, rfl⟩,
   ((kill_effects_in_order listeningInstance).1 _ _ rfl rfl).1.trans rfl,
   ((kill_effects_in_order listeningInstance).1 _ _ rfl rfl).2⟩

/-- C9 (counterexample): `kill()` of the base class on a task just constructed
sets the kill flag and leaves the completion future pending. -/
theorem base_kill_leaves_completion_pending :
    Task.create.kill.killInProgress = true ∧ Task.create.kill.completionResolved = false := by
  exact ⟨rfl, rfl⟩

/-- C9 (amended): `kill()` of the base class sets the kill flag, leaves the
completion future as it was and gives the same state when called twice;
`Cognigy.kill()` on an instance that `exec` has bound to its channel and
endpoint, in whatever state of reporting, killing or completion, finishes
without raising and leaves the completion future signaled, and a second
`kill()` does not raise either and leaves the state of the first. -/
theorem kill_completes_when_bound (t : Task) (s : Cognigy)
    (hclient : s.client.isSome = true) (hep : s.ep.isSome = true) :
    (t.kill.killInProgress = true ∧ t.kill.completionResolved = t.completionResolved ∧
      t.kill.kill = t.kill) ∧
    (Cognigy.kill s).raised = none ∧
    (Cognigy.kill s).state.completionResolved = true ∧
    (Cognigy.kill (Cognigy.kill s).state).raised = none ∧
    (Cognigy.kill (Cognigy.kill s).state).state = (Cognigy.kill s).state := by
  refine ⟨⟨rfl, rfl, rfl⟩, ?_⟩
  rcases hc : s.client with _ | c
  · simp [hc] at hclient
  rcases he : s.ep with _ | e
  · simp [he] at hep
  cases h1 : s.reportedFinalAction <;> cases h2 : s.isReplacingApplication <;>
    simp [Cognigy.kill, hc, he, Cognigy.hasReportedFinalAction, h1, h2, Task.kill,
      Task.notifyTaskDone]

/-- C9 (amended) on a task just constructed and on a connected instance. -/
theorem kill_completes_when_bound_witness :
    (activeInstance.client.isSome = true ∧ activeInstance.ep.isSome = true) ∧
    ((Task.create.kill.killInProgress = true ∧
        Task.create.kill.completionResolved = Task.create.completionResolved ∧
        Task.create.kill.kill = Task.create.kill) ∧
      (Cognigy.kill activeInstance).raised = none ∧
      (Cognigy.kill activeInstance).state.completionResolved = true ∧
      (Cognigy.kill (Cognigy.kill activeInstance).state).raised = none ∧
      (Cognigy.kill (Cognigy.kill activeInstance).state).state =
        (Cognigy.kill activeInstance).state) :=
  ⟨⟨rfl, rfl⟩, kill_completes_when_bound Task.create activeInstance rfl rfl⟩

/-! ### Caller speech -/

/-- C10 (counterexample): with an event hook that signals redirect and a
connected channel, `_onTranscription` reports `redirect` and still forwards the
utterance to the channel. -/
theorem transcription_forwarded_despite_redirect :
    (Cognigy._onTranscription hookedInstance "hello" (.resolved true) false).trace =
      [.performHook (.str "/events") "userMessage" (.str "hello"),
       .sendMessage (.str "hello") .undefined,
       .performAction (cognigyResult "redirect") (.bool false)] := by
  rfl

/-- The forwarding block in one piece: nothing on a disconnected channel, the
call alone when it returns, the call and the `socketError` path when it throws. -/
theorem forwardToBot_eq (s : Cognigy) (message : JVal) (sendThrows : Bool) :
    Cognigy.forwardToBot message sendThrows s =
      if s.clientConnected then
        if sendThrows then
          { state := { s with reportedFinalAction := true, completionResolved := true },
            trace := [.sendMessage message .undefined,
              .performAction (cognigyResult "socketError") .undefined, .notifyTaskDone],
            raised := none }
        else { state := s, trace := [.sendMessage message .undefined], raised := none }
      else { state := s, trace := [], raised := none } := by
  unfold Cognigy.forwardToBot Cognigy.clientConnected
  rcases hc : s.client with _ | ⟨_ | _, cl⟩ <;> cases sendThrows <;>
    simp [Step.andThen, Cognigy.markAndNotify, Cognigy.notifyTaskDone, Task.notifyTaskDone, hc]

/-- C10 (amended): `_onTranscription` calls `client.sendMessage` with the
utterance verbatim, once, exactly when the channel is connected, whatever the
event hook answers: the handler does not wait for the hook.  When a hook is
configured and signals redirect, the final action is marked reported and
`redirect` is reported.  When no hook is configured or the hook does not signal
redirect, and the channel is disconnected (or the send does not throw), no
final action is reported, completion is not signaled and the flag and the
completion future stay as they were. -/
theorem transcription_forwarding (s : Cognigy) (utterance : String) (hook : HookOutcome)
    (sendThrows : Bool) :
    (Cognigy._onTranscription s utterance hook sendThrows).trace.filter Effect.isSend =
      (if s.clientConnected then [.sendMessage (.str utterance) .undefined] else []) ∧
    (s.eventHook.truthy = true → hook = .resolved true →
      (Cognigy._onTranscription s utterance hook sendThrows).state.reportedFinalAction = true ∧
      Effect.performAction (cognigyResult "redirect") (.bool false) ∈
        (Cognigy._onTranscription s utterance hook sendThrows).trace) ∧
    (s.eventHook.truthy = false ∨ hook ≠ .resolved true →
      s.clientConnected = false ∨ sendThrows = false →
      (Cognigy._onTranscription s utterance hook sendThrows).trace.filter Effect.isReport = [] ∧
      (Cognigy._onTranscription s utterance hook sendThrows).trace.filter Effect.isDone = [] ∧
      (Cognigy._onTranscription s utterance hook sendThrows).state.reportedFinalAction =
        s.reportedFinalAction ∧
      (Cognigy._onTranscription s utterance hook sendThrows).state.completionResolved =
        s.completionResolved) := by
  simp only [Cognigy._onTranscription, Cognigy.callEventHook, Step.andThen, forwardToBot_eq]
  refine ⟨?_, ?_, ?_⟩
  · unfold Cognigy.hookContinuation
    by_cases h1 : s.eventHook.truthy = true <;> by_cases h2 : s.clientConnected = true <;>
      rcases hook with ⟨_ | _⟩ | _ <;> cases s.transcribeTask <;> cases sendThrows <;>
      simp [h1, h2, Effect.isSend]
  · intro h1 h2
    subst h2
    unfold Cognigy.hookContinuation
    by_cases h3 : s.clientConnected = true <;> cases s.transcribeTask <;> cases sendThrows <;>
      simp [h1, h3]
  · intro h hs
    unfold Cognigy.hookContinuation
    have hsend : (s.clientConnected && sendThrows) = false := by
      rcases hs with hs | hs <;> simp [hs]
    by_cases h1 : s.eventHook.truthy = true <;> by_cases h3 : s.clientConnected = true <;>
      rcases hook with ⟨_ | _⟩ | _ <;> cases sendThrows <;>
      simp [h1, h3, Effect.isReport, Effect.isDone] at h hsend ⊢

/-- C10 (amended) on a connected instance whose event hook signals redirect. -/
theorem transcription_forwarding_witness :
    (hookedInstance.eventHook.truthy = true ∧ HookOutcome.resolved true = .resolved true) ∧
    ((Cognigy._onTranscription hookedInstance "hello" (.resolved true)
        false).state.reportedFinalAction = true ∧
      Effect.performAction (cognigyResult "redirect") (.bool false) ∈
        (Cognigy._onTranscription hookedInstance "hello" (.resolved true) false).trace) :=
  ⟨⟨rfl, rfl⟩,
   (transcription_forwarding hookedInstance "hello" (.resolved true) false).2.1 rfl rfl⟩

/-! ### Validation in memory -/

/-- The sample memory holds the sample registry. -/
theorem sampleWorld_registry : sampleWorld.registry = sampleRegistry := rfl

/-- A memory extends itself. -/
theorem extendedBy_refl (w : ValidateWorld) : w.extendedBy w :=
  ⟨rfl, [], (List.append_nil _).symm⟩

/-- Extensions compose. -/
theorem extendedBy_trans (a b c : ValidateWorld) (h1 : a.extendedBy b) (h2 : b.extendedBy c) :
    a.extendedBy c := by
  obtain ⟨s1, e1, h1⟩ := h1
  obtain ⟨s2, e2, h2⟩ := h2
  exact ⟨s2.trans s1, e1 ++ e2, by rw [h2, h1, List.append_assoc]⟩

/-- Placing a new array extends the memory. -/
theorem extendedBy_alloc (w : ValidateWorld) (xs : List String) :
    w.extendedBy (w.alloc xs).1 :=
  ⟨rfl, [xs], rfl⟩

/-- An extension has at least the arrays of the memory it extends. -/
theorem extendedBy_length (w w2 : ValidateWorld) (h : w.extendedBy w2) :
    w.cells.length ≤ w2.cells.length := by
  obtain ⟨_, e, h⟩ := h
  rw [h, List.length_append]
  exact Nat.le_add_right _ _

/-- An extension holds the same array at every address that existed. -/
theorem read_of_extendedBy (w w2 : ValidateWorld) (h : w.extendedBy w2) (a : Nat)
    (ha : a < w.cells.length) : w2.read a = w.read a := by
  obtain ⟨_, e, h⟩ := h
  simp only [ValidateWorld.read, h, List.getD_eq_getElem?_getD]
  rw [List.getElem?_append_left ha]

/-- The array at the address returned for it is the array placed. -/
theorem read_alloc (w : ValidateWorld) (xs : List String) :
    (w.alloc xs).1.read (w.alloc xs).2 = xs := by
  simp [ValidateWorld.read, ValidateWorld.alloc]

/-- The loop over the members in memory has the outcome of the pure loop and only adds arrays. -/
theorem validateItemsIn_tracks (w0 : ValidateWorld) (R : String → JVal → Stateful)
    (r : String → JVal → Outcome) (hR : ∀ n v, Tracks w0 (R n v) (r n v)) (name : String) :
    ∀ items, Tracks w0 (validateItemsIn R name items) (validateItems r name items) := by
  intro items
  induction items with
  | nil => intro w _; exact ⟨extendedBy_refl w, rfl⟩
  | cons item rest ih =>
    intro w hw
    obtain ⟨h1, h2⟩ := hR name item w hw
    simp only [validateItemsIn, validateItems]
    rw [← h2]
    rcases hres : R name item w with ⟨w1, o1⟩
    rw [hres] at h1
    simp only at h1 ⊢
    rcases o1 with _ | (e | u)
    · exact ⟨h1, rfl⟩
    · exact ⟨h1, rfl⟩
    · obtain ⟨k1, k2⟩ := ih w1 (extendedBy_trans _ _ _ hw h1)
      exact ⟨extendedBy_trans _ _ _ h1 k1, k2⟩

/-- Against an object descriptor the check in memory is the pure check and
leaves the memory as it is. -/
theorem checkPropertyIn_obj (R : String → JVal → Stateful) (r : String → JVal → Outcome)
    (name dKey : String) (dVal : JVal) (props : List (String × JVal)) (w : ValidateWorld) :
    checkPropertyIn R name dKey dVal (.obj props) w =
      (w, checkProperty r name dKey dVal (.obj props)) := by
  simp only [checkPropertyIn, checkProperty]
  cases props.lookup "type" with
  | none => rfl
  | some tv =>
    cases tv with
    | str type =>
      by_cases h1 : simpleTypes.contains type = true
      · by_cases h2 : (type == "string" &&
            ((props.lookup "enum").getD .undefined).truthy) = true
        · simp only []
          rw [if_pos h1, if_pos h1, if_pos h2, if_pos h2]
          cases (props.lookup "enum").getD .undefined with
          | arr allowed =>
            by_cases h3 : (!JVal.includes allowed dVal) = true
            · simp only []; rw [if_pos h3, if_pos h3]
            · simp only []; rw [if_neg h3, if_neg h3]
          | _ => rfl
        · simp only []
          rw [if_pos h1, if_pos h1, if_neg h2, if_neg h2]
      · simp only []; rw [if_neg h1, if_neg h1]
    | _ => rfl

/-- The check of one value is decided without a nested call, or is one nested
call on the value, or is the loop over the members of the value; in memory it
is the same case. -/
theorem checkProperty_shape (name dKey : String) (dVal dSpec : JVal) :
    (∃ c : Except JSError Unit, (∀ r, checkProperty r name dKey dVal dSpec = some c) ∧
      ∀ R w, checkPropertyIn R name dKey dVal dSpec w = (w, some c)) ∨
    (∃ ref, (∀ r, checkProperty r name dKey dVal dSpec = r ref dVal) ∧
      ∀ R w, checkPropertyIn R name dKey dVal dSpec w = R ref dVal w) ∨
    (∃ ref items, dVal.forOfItems = .ok items ∧
      (∀ r, checkProperty r name dKey dVal dSpec = validateItems r ref items) ∧
      ∀ R w, checkPropertyIn R name dKey dVal dSpec w = validateItemsIn R ref items w) := by
  cases dSpec with
  | undefined => exact Or.inl ⟨_, fun _ => rfl, fun _ _ => rfl⟩
  | null => exact Or.inl ⟨_, fun _ => rfl, fun _ _ => rfl⟩
  | bool b => exact Or.inl ⟨_, fun _ => rfl, fun _ _ => rfl⟩
  | num n => exact Or.inl ⟨_, fun _ => rfl, fun _ _ => rfl⟩
  | str t =>
    by_cases h1 : simpleTypes.contains t = true
    · by_cases h2 : (dVal.typeOf != t) = true
      · exact Or.inl ⟨.error (.invalidDataType name dKey),
          fun _ => by simp only [checkProperty]; rw [if_pos h1, if_pos h2],
          fun _ _ => by simp only [checkPropertyIn]; rw [if_pos h1, if_pos h2]⟩
      · exact Or.inl ⟨.ok (),
          fun _ => by simp only [checkProperty]; rw [if_pos h1, if_neg h2],
          fun _ _ => by simp only [checkPropertyIn]; rw [if_pos h1, if_neg h2]⟩
    · by_cases h2 : (t == "array") = true
      · by_cases h3 : (!dVal.isArray) = true
        · exact Or.inl ⟨.error (.notAnArray name dKey),
            fun _ => by simp only [checkProperty]; rw [if_neg h1, if_pos h2, if_pos h3],
            fun _ _ => by simp only [checkPropertyIn]; rw [if_neg h1, if_pos h2, if_pos h3]⟩
        · exact Or.inl ⟨.ok (),
            fun _ => by simp only [checkProperty]; rw [if_neg h1, if_pos h2, if_neg h3],
            fun _ _ => by simp only [checkPropertyIn]; rw [if_neg h1, if_pos h2, if_neg h3]⟩
      · cases hr : refName t with
        | none =>
          exact Or.inl ⟨.error .assertion,
            fun _ => by simp only [checkProperty]; rw [if_neg h1, if_neg h2]; simp only [hr],
            fun _ _ => by simp only [checkPropertyIn]; rw [if_neg h1, if_neg h2]; simp only [hr]⟩
        | some ref =>
          exact Or.inr (Or.inl ⟨ref,
            fun _ => by simp only [checkProperty]; rw [if_neg h1, if_neg h2]; simp only [hr],
            fun _ _ => by
              simp only [checkPropertyIn]; rw [if_neg h1, if_neg h2]; simp only [hr]⟩)
  | arr ds =>
    cases ds with
    | nil => exact Or.inl ⟨_, fun _ => rfl, fun _ _ => rfl⟩
    | cons d rest =>
      cases d with
      | str t =>
        cases hr : refName t with
        | none =>
          exact Or.inl ⟨.error .assertion, fun _ => by simp [checkProperty, hr],
            fun _ _ => by simp [checkPropertyIn, hr]⟩
        | some ref =>
          cases hi : dVal.forOfItems with
          | error e =>
            exact Or.inl ⟨.error e, fun _ => by simp [checkProperty, hr, hi],
              fun _ _ => by simp [checkPropertyIn, hr, hi]⟩
          | ok items =>
            exact Or.inr (Or.inr ⟨ref, items, rfl, fun _ => by simp [checkProperty, hr, hi],
              fun _ _ => by simp [checkPropertyIn, hr, hi]⟩)
      | undefined => exact Or.inl ⟨_, fun _ => rfl, fun _ _ => rfl⟩
      | null => exact Or.inl ⟨_, fun _ => rfl, fun _ _ => rfl⟩
      | bool b => exact Or.inl ⟨_, fun _ => rfl, fun _ _ => rfl⟩
      | num n => exact Or.inl ⟨_, fun _ => rfl, fun _ _ => rfl⟩
      | arr xs => exact Or.inl ⟨_, fun _ => rfl, fun _ _ => rfl⟩
      | obj ps => exact Or.inl ⟨_, fun _ => rfl, fun _ _ => rfl⟩
  | obj props =>
    left
    refine ⟨(checkProperty (fun _ _ => none) name dKey dVal (.obj props)).getD (.ok ()),
      fun r => ?_, fun R w => ?_⟩
    · simp only [checkProperty]
      cases props.lookup "type" with
      | none => rfl
      | some tv =>
        cases tv with
        | str type =>
          by_cases h1 : simpleTypes.contains type = true
          · by_cases h2 : (type == "string" &&
                ((props.lookup "enum").getD .undefined).truthy) = true
            · simp only [h1, if_true]
              rw [if_pos h2]
              cases (props.lookup "enum").getD .undefined with
              | arr allowed =>
                by_cases h3 : (!JVal.includes allowed dVal) = true
                · simp only []; rw [if_pos h3]; rfl
                · simp only []; rw [if_neg h3]; rfl
              | _ => rfl
            · simp only [h1, if_true]
              rw [if_neg h2]
              rfl
          · simp only []; rw [if_neg h1]; rfl
        | _ => rfl
    · rw [checkPropertyIn_obj R (fun _ _ => none) name dKey dVal props w]
      cases hc : checkProperty (fun _ _ => none) name dKey dVal (.obj props) with
      | some c => rfl
      | none =>
        exfalso
        revert hc
        simp only [checkProperty]
        cases props.lookup "type" with
        | none => simp
        | some tv =>
          cases tv with
          | str type =>
            by_cases h1 : simpleTypes.contains type = true
            · by_cases h2 : (type == "string" &&
                  ((props.lookup "enum").getD .undefined).truthy) = true
              · simp only []
                rw [if_pos h1, if_pos h2]
                cases (props.lookup "enum").getD .undefined with
                | arr allowed =>
                  by_cases h3 : (!JVal.includes allowed dVal) = true
                  · simp only []; rw [if_pos h3]; simp
                  · simp only []; rw [if_neg h3]; simp
                | _ => simp
              · simp only []
                rw [if_pos h1, if_neg h2]
                simp
            · simp only []; rw [if_neg h1]; simp
          | _ => simp

/-- The check of one value in memory has the outcome of the pure check and only adds arrays. -/
theorem checkPropertyIn_tracks (w0 : ValidateWorld) (R : String → JVal → Stateful)
    (r : String → JVal → Outcome) (hR : ∀ n v, Tracks w0 (R n v) (r n v))
    (name dKey : String) (dVal dSpec : JVal) :
    Tracks w0 (checkPropertyIn R name dKey dVal dSpec) (checkProperty r name dKey dVal dSpec) := by
  intro w hw
  rcases checkProperty_shape name dKey dVal dSpec with ⟨c, hp, hs⟩ | ⟨ref, hp, hs⟩ |
    ⟨ref, items, _, hp, hs⟩
  · rw [hp, hs]; exact ⟨extendedBy_refl w, rfl⟩
  · rw [hp, hs]; exact hR ref dVal w hw
  · rw [hp, hs]; exact validateItemsIn_tracks w0 R r hR ref items w hw

/-- The loop over the keys in memory has the outcome of the pure loop started
with the array the local `required` points to, and only adds arrays. -/
theorem validateKeysIn_tracks (w0 : ValidateWorld) (R : String → JVal → Stateful)
    (r : String → JVal → Outcome) (hR : ∀ n v, Tracks w0 (R n v) (r n v))
    (name : String) (specData : SpecData) :
    ∀ (entries : List (String × JVal)) (required : Nat) (w : ValidateWorld),
      w0.extendedBy w → required < w.cells.length →
      w.extendedBy (validateKeysIn R name specData.properties required entries w).1 ∧
      (validateKeysIn R name specData.properties required entries w).2 =
        validateKeys r name specData (w.read required) entries := by
  intro entries
  induction entries with
  | nil =>
    intro required w _ _
    simp only [validateKeysIn, validateKeys]
    by_cases h : (w.read required).length > 0
    · rw [if_pos h, if_pos h]; exact ⟨extendedBy_refl w, rfl⟩
    · rw [if_neg h, if_neg h]; exact ⟨extendedBy_refl w, rfl⟩
  | cons kv rest ih =>
    intro required w hw hreq
    obtain ⟨k, v⟩ := kv
    simp only [validateKeysIn, validateKeys]
    cases hl : specData.properties.lookup k with
    | none =>
      simp only []
      by_cases h : objectPrototypeKeys.contains k = true
      · rw [if_pos h, if_pos h]; exact ⟨extendedBy_refl w, rfl⟩
      · rw [if_neg h, if_neg h]; exact ⟨extendedBy_refl w, rfl⟩
    | some dSpec =>
      simp only []
      obtain ⟨h1, h2⟩ := checkPropertyIn_tracks w0 R r hR name k v dSpec w hw
      rw [← h2]
      rcases hres : checkPropertyIn R name k v dSpec w with ⟨w1, o1⟩
      rw [hres] at h1
      simp only at h1 ⊢
      rcases o1 with _ | (e | u)
      · exact ⟨h1, rfl⟩
      · exact ⟨h1, rfl⟩
      · have hreq1 : required < w1.cells.length :=
          Nat.lt_of_lt_of_le hreq (extendedBy_length _ _ h1)
        have hrd : w1.read required = w.read required :=
          read_of_extendedBy w w1 h1 required hreq
        have ha := extendedBy_alloc w1 ((w1.read required).filter (fun item => item != k))
        obtain ⟨k1, k2⟩ := ih
          (w1.alloc ((w1.read required).filter (fun item => item != k))).2
          (w1.alloc ((w1.read required).filter (fun item => item != k))).1
          (extendedBy_trans _ _ _ (extendedBy_trans _ _ _ hw h1) ha)
          (by simp [ValidateWorld.alloc])
        rw [read_alloc] at k2
        rw [← hrd]
        exact ⟨extendedBy_trans _ _ _ h1 (extendedBy_trans _ _ _ ha k1), k2⟩

/-- An entry found by name is an entry of the list. -/
theorem lookup_mem (specs : List (String × SpecCell)) (name : String) (c : SpecCell)
    (h : specs.lookup name = some c) : ∃ n, (n, c) ∈ specs := by
  induction specs with
  | nil => simp at h
  | cons e rest ih =>
    obtain ⟨n, c2⟩ := e
    simp only [List.lookup_cons] at h
    cases hn : name == n with
    | true =>
      rw [hn] at h
      simp only [Option.some.injEq] at h
      exact ⟨n, by rw [h]; exact List.mem_cons_self _ _⟩
    | false =>
      rw [hn] at h
      obtain ⟨m, hm⟩ := ih h
      exact ⟨m, List.mem_cons_of_mem _ hm⟩

/-- Looking a name up in the registry read from the memory. -/
theorem registry_lookup (w : ValidateWorld) (name : String) :
    w.registry.lookup name = (w.specs.lookup name).map w.specData := by
  simp only [ValidateWorld.registry]
  induction w.specs with
  | nil => rfl
  | cons e rest ih =>
    obtain ⟨n, c⟩ := e
    simp only [List.map_cons, List.lookup_cons]
    cases name == n with
    | true => rfl
    | false => exact ih

/-- The method in memory has the outcome of the pure method over the registry
read from the memory, and only adds arrays behind those that were there. -/
theorem validateIn_tracks (w0 : ValidateWorld) (hwf : w0.wellFormed) :
    ∀ (fuel : Nat) (name : String) (data : JVal),
      Tracks w0 (Task.validateIn fuel name data) (Task.validate w0.registry fuel name data) := by
  intro fuel
  induction fuel with
  | zero => intro name data w _; exact ⟨extendedBy_refl w, rfl⟩
  | succ fuel ih =>
    intro name data w hw
    simp only [Task.validateIn, Task.validate]
    rw [registry_lookup, hw.1]
    cases hl : w0.specs.lookup name with
    | none => exact ⟨extendedBy_refl w, rfl⟩
    | some c =>
      simp only [Option.map_some']
      cases hr : c.required with
      | some a =>
        simp only []
        obtain ⟨n, hn⟩ := lookup_mem w0.specs name c hl
        have ha : a < w0.cells.length := hwf (n, c) hn a hr
        have h := validateKeysIn_tracks w0 (Task.validateIn fuel)
          (Task.validate w0.registry fuel) ih name (w0.specData c) data.forInEntries a w hw
          (Nat.lt_of_lt_of_le ha (extendedBy_length _ _ hw))
        rw [read_of_extendedBy w0 w hw a ha] at h
        have hreq : (w0.specData c).required = w0.read a := by
          simp [ValidateWorld.specData, hr]
        rw [hreq]
        exact h
      | none =>
        simp only []
        have h := validateKeysIn_tracks w0 (Task.validateIn fuel)
          (Task.validate w0.registry fuel) ih name (w0.specData c) data.forInEntries
          (w.alloc []).2 (w.alloc []).1
          (extendedBy_trans _ _ _ hw (extendedBy_alloc w []))
          (by simp [ValidateWorld.alloc])
        rw [read_alloc] at h
        have hreq : (w0.specData c).required = [] := by
          simp [ValidateWorld.specData, hr]
        rw [hreq]
        exact ⟨extendedBy_trans _ _ _ (extendedBy_alloc w []) h.1, h.2⟩

/-- A memory that extends a well-formed one has the same registry. -/
theorem registry_of_extendedBy (w w2 : ValidateWorld) (hwf : w.wellFormed)
    (h : w.extendedBy w2) : w2.registry = w.registry := by
  simp only [ValidateWorld.registry, h.1]
  apply List.map_congr_left
  intro e he
  have hs : w2.specData e.2 = w.specData e.2 := by
    simp only [ValidateWorld.specData]
    cases hr : e.2.required with
    | none => rfl
    | some a => simp only [read_of_extendedBy w w2 h a (hwf e he a hr)]
  rw [hs]

/-- C13: in a memory whose registry arrays all exist, a call of
`Task.validate` leaves the registry and every array that was there unchanged,
whether it returns or raises: its only writes are new arrays. Its outcome is
that of the method read as a function of the registry and the payload, which is
passed as a value the method only reads; so a second call with the same
arguments, made in the memory the first one left, has the same outcome. -/
theorem validate_leaves_registry (w : ValidateWorld) (hwf : w.wellFormed) (fuel : Nat)
    (name : String) (data : JVal) :
    (Task.validateIn fuel name data w).1.specs = w.specs ∧
    (∀ a, a < w.cells.length → (Task.validateIn fuel name data w).1.read a = w.read a) ∧
    (Task.validateIn fuel name data w).1.registry = w.registry ∧
    (Task.validateIn fuel name data w).2 = Task.validate w.registry fuel name data ∧
    (Task.validateIn fuel name data (Task.validateIn fuel name data w).1).2 =
      (Task.validateIn fuel name data w).2 := by
  obtain ⟨h1, h2⟩ := validateIn_tracks w hwf fuel name data w (extendedBy_refl w)
  refine ⟨h1.1, fun a ha => read_of_extendedBy _ _ h1 a ha,
    registry_of_extendedBy _ _ hwf h1, h2, ?_⟩
  rw [h2]
  exact (validateIn_tracks w hwf fuel name data _ h1).2

/-- C13 on the sample registry: a payload that filters the `required` array of
`listen` leaves that array as it was and is accepted again. -/
theorem validate_leaves_registry_witness :
    sampleWorld.wellFormed ∧
    (Task.validateIn 1 "listen" (.obj [("url", .str "wss://example.com")]) sampleWorld).1.read 0 =
      ["url"] ∧
    (Task.validateIn 1 "listen" (.obj [("url", .str "wss://example.com")]) sampleWorld).1.cells =
      [["url"], ["type"], []] ∧
    (Task.validateIn 1 "listen" (.obj [("url", .str "wss://example.com")]) sampleWorld).2 =
      some (.ok ()) ∧
    (Task.validateIn 1 "listen" (.obj [("url", .str "wss://example.com")])
      (Task.validateIn 1 "listen" (.obj [("url", .str "wss://example.com")]) sampleWorld).1).2 =
      some (.ok ()) :=
  have hwf : sampleWorld.wellFormed := by
    intro e he a ha
    simp only [sampleWorld, List.mem_cons, List.mem_singleton, List.not_mem_nil, or_false] at he
    rcases he with rfl | rfl | rfl
    · simp only [Option.some.injEq] at ha; subst ha; decide
    · simp at ha
    · simp only [Option.some.injEq] at ha; subst ha; decide
  ⟨hwf,
   (validate_leaves_registry sampleWorld hwf 1 "listen"
     (.obj [("url", .str "wss://example.com")])).2.1 0 (by decide),
   rfl, rfl,
   ((validate_leaves_registry sampleWorld hwf 1 "listen"
     (.obj [("url", .str "wss://example.com")])).2.2.2.2).trans rfl⟩

/-! ### Budget and order of the checks -/

/-- The loop over the members keeps its outcome when nested calls return more often. -/
theorem validateItems_mono (r1 r2 : String → JVal → Outcome)
    (h : ∀ n v o, r1 n v = some o → r2 n v = some o) (name : String) :
    ∀ (items : List JVal) (o : Except JSError Unit),
      validateItems r1 name items = some o → validateItems r2 name items = some o := by
  intro items
  induction items with
  | nil => intro o ho; exact ho
  | cons item rest ih =>
    intro o ho
    simp only [validateItems] at ho ⊢
    cases h1 : r1 name item with
    | none => simp [h1] at ho
    | some o1 =>
      rw [h _ _ _ h1]
      rw [h1] at ho
      cases o1 with
      | error e => exact ho
      | ok u => exact ih o ho

/-- The check of one value keeps its outcome when nested calls return more often. -/
theorem checkProperty_mono (r1 r2 : String → JVal → Outcome)
    (h : ∀ n v o, r1 n v = some o → r2 n v = some o) (name dKey : String) (dVal dSpec : JVal)
    (o : Except JSError Unit) (ho : checkProperty r1 name dKey dVal dSpec = some o) :
    checkProperty r2 name dKey dVal dSpec = some o := by
  rcases checkProperty_shape name dKey dVal dSpec with ⟨c, hc, _⟩ | ⟨ref, hc, _⟩ |
    ⟨ref, items, _, hc, _⟩
  · rw [hc] at ho ⊢; exact ho
  · rw [hc] at ho ⊢; exact h _ _ _ ho
  · rw [hc] at ho ⊢; exact validateItems_mono r1 r2 h ref items o ho

/-- The loop over the keys keeps its outcome when nested calls return more often. -/
theorem validateKeys_mono (r1 r2 : String → JVal → Outcome)
    (h : ∀ n v o, r1 n v = some o → r2 n v = some o) (name : String) (specData : SpecData) :
    ∀ (entries : List (String × JVal)) (required : List String) (o : Except JSError Unit),
      validateKeys r1 name specData required entries = some o →
      validateKeys r2 name specData required entries = some o := by
  intro entries
  induction entries with
  | nil => intro required o ho; exact ho
  | cons kv rest ih =>
    intro required o ho
    obtain ⟨k, v⟩ := kv
    simp only [validateKeys] at ho ⊢
    cases hl : specData.properties.lookup k with
    | none => rw [hl] at ho; exact ho
    | some dSpec =>
      rw [hl] at ho
      simp only at ho ⊢
      cases h1 : checkProperty r1 name k v dSpec with
      | none => simp [h1] at ho
      | some o1 =>
        rw [checkProperty_mono r1 r2 h name k v dSpec o1 h1]
        rw [h1] at ho
        cases o1 with
        | error e => exact ho
        | ok u => exact ih _ o ho

/-- A call that returns within a budget returns the same within a larger one. -/
theorem validate_mono_succ (specs : Registry) :
    ∀ (fuel : Nat) (name : String) (data : JVal) (o : Except JSError Unit),
      Task.validate specs fuel name data = some o →
      Task.validate specs (fuel + 1) name data = some o := by
  intro fuel
  induction fuel with
  | zero => intro name data o ho; simp [Task.validate] at ho
  | succ fuel ih =>
    intro name data o ho
    unfold Task.validate at ho ⊢
    cases hl : List.lookup name specs with
    | none => rw [hl] at ho; exact ho
    | some specData =>
      rw [hl] at ho
      exact validateKeys_mono _ _ ih name specData _ _ o ho

/-- A call that returns within a budget returns the same within every larger one. -/
theorem validate_mono (specs : Registry) (name : String) (data : JVal)
    (o : Except JSError Unit) (f1 f2 : Nat) (hle : f1 ≤ f2)
    (ho : Task.validate specs f1 name data = some o) :
    Task.validate specs f2 name data = some o := by
  induction hle with
  | refl => exact ho
  | step _ ih => exact validate_mono_succ specs _ name data o ih

/-- The outcome of a call does not depend on the budget within which it returns. -/
theorem validate_outcome_unique (specs : Registry) (name : String) (data : JVal)
    (f1 f2 : Nat) (o1 o2 : Except JSError Unit)
    (h1 : Task.validate specs f1 name data = some o1)
    (h2 : Task.validate specs f2 name data = some o2) : o1 = o2 := by
  have a := validate_mono specs name data o1 f1 (max f1 f2) (le_max_left _ _) h1
  have b := validate_mono specs name data o2 f2 (max f1 f2) (le_max_right _ _) h2
  rw [a] at b
  exact Option.some.inj b

/-- While the entries pass, the loop goes on with the required keys they do not supply. -/
theorem validateKeys_passing (recur : String → JVal → Outcome) (name : String)
    (specData : SpecData) :
    ∀ (pre rest : List (String × JVal)) (required : List String),
      (∀ kv ∈ pre, entryPasses recur name specData kv) →
      validateKeys recur name specData required (pre ++ rest) =
        validateKeys recur name specData (absentRequired required pre) rest := by
  intro pre
  induction pre with
  | nil => intro rest required _; simp [absentRequired]
  | cons kv pre ih =>
    intro rest required hall
    obtain ⟨k, v⟩ := kv
    obtain ⟨dSpec, hl, hc⟩ := hall (k, v) (List.mem_cons_self _ _)
    simp only [List.cons_append, validateKeys]
    simp only at hl hc
    rw [hl]
    simp only [hc]
    have ih' := ih rest (List.filter (fun item => item != k) required)
      (fun kv hkv => hall kv (List.mem_cons_of_mem _ hkv))
    show validateKeys recur name specData (List.filter (fun item => item != k) required)
        (pre ++ rest) = _
    rw [ih']
    congr 1
    simp only [absentRequired, List.filter_filter, List.any_cons]
    apply List.filter_congr
    intro r _
    by_cases hkr : k = r
    · subst hkr; simp
    · have h1 : (r != k) = true := by simpa using fun h : r = k => hkr h.symm
      have h2 : (k == r) = false := by simpa using hkr
      rw [h1, h2]
      simp

/-- C14 (counterexample): a payload with a mistyped registered key before an
unregistered key is rejected for the mistyped key, not as unknown property. -/
theorem mistyped_key_wins_over_unknown :
    Task.validate sampleRegistry 1 "listen" badThenUnknown =
      some (.error (.invalidDataType "listen" "url")) := by
  rfl

/-- C14 (amended): when the keys enumerated before an unregistered key all pass
and the unregistered key is not a name inherited from `Object.prototype`,
`Task.validate` raises `<name>: unknown property <key>` for that key. -/
theorem unknown_property_raised (specs : Registry) (fuel : Nat) (name : String)
    (specData : SpecData) (pre post : List (String × JVal)) (k : String) (v : JVal)
    (hreg : specs.lookup name = some specData)
    (hpass : ∀ kv ∈ pre, entryPasses (Task.validate specs fuel) name specData kv)
    (hunreg : specData.properties.lookup k = none)
    (hown : objectPrototypeKeys.contains k = false) :
    Task.validate specs (fuel + 1) name (.obj (pre ++ (k, v) :: post)) =
      some (.error (.unknownProperty name k)) := by
  simp only [Task.validate, hreg, JVal.forInEntries]
  rw [validateKeys_passing _ name specData pre _ _ hpass]
  simp only [validateKeys, hunreg, hown]
  rfl

/-- C14 (amended) on a `listen` payload with a valid `url` before the key `zzz`. -/
theorem unknown_property_raised_witness :
    (sampleRegistry.lookup "listen" =
        some { required := ["url"],
               properties := [("url", .str "string"),
                              ("sampleRate", .obj [("type", .str "number")])] } ∧
      objectPrototypeKeys.contains "zzz" = false) ∧
    Task.validate sampleRegistry 1 "listen"
        (.obj ([("url", .str "wss://example.com")] ++ ("zzz", .num 1) :: [])) =
      some (.error (.unknownProperty "listen" "zzz")) :=
  ⟨⟨rfl, rfl⟩,
   unknown_property_raised sampleRegistry 0 "listen" _ [("url", .str "wss://example.com")] []
     "zzz" (.num 1) rfl
     (by
       intro kv hkv
       simp only [List.mem_singleton] at hkv
       subst hkv
       exact ⟨.str "string", rfl, rfl⟩)
     rfl rfl⟩

/-- The required keys that the entries do not supply are those of the list that
are the key of no entry. -/
theorem mem_absentRequired (required : List String) (entries : List (String × JVal))
    (r : String) :
    r ∈ absentRequired required entries ↔ r ∈ required ∧ ∀ kv ∈ entries, kv.1 ≠ r := by
  simp [absentRequired, List.mem_filter]

/-- C15: when every present key is registered and passes its check,
`Task.validate` returns normally if no required key is absent and otherwise
raises `missing value for` with exactly the absent required keys, in the order
of the spec's required list. -/
theorem missing_value_names_absent (specs : Registry) (fuel : Nat) (name : String)
    (specData : SpecData) (data : JVal)
    (hreg : specs.lookup name = some specData)
    (hpass : ∀ kv ∈ data.forInEntries,
      entryPasses (Task.validate specs fuel) name specData kv) :
    Task.validate specs (fuel + 1) name data =
      (if absentRequired specData.required data.forInEntries = [] then some (.ok ())
       else some (.error (.missingValue name
         (absentRequired specData.required data.forInEntries)))) ∧
    (absentRequired specData.required data.forInEntries).Sublist specData.required ∧
    (∀ r, r ∈ absentRequired specData.required data.forInEntries ↔
      r ∈ specData.required ∧ ∀ kv ∈ data.forInEntries, kv.1 ≠ r) := by
  refine ⟨?_, List.filter_sublist _, mem_absentRequired _ _⟩
  simp only [Task.validate, hreg]
  have h := validateKeys_passing (Task.validate specs fuel) name specData data.forInEntries []
    specData.required hpass
  rw [List.append_nil] at h
  rw [h]
  simp only [validateKeys]
  cases absentRequired specData.required data.forInEntries with
  | nil => simp
  | cons r rs => simp

/-- C15 on a `listen` payload without the required `url`. -/
theorem missing_value_names_absent_witness :
    sampleRegistry.lookup "listen" =
        some { required := ["url"],
               properties := [("url", .str "string"),
                              ("sampleRate", .obj [("type", .str "number")])] } ∧
    Task.validate sampleRegistry 1 "listen" listenWithoutUrl =
      some (.error (.missingValue "listen" ["url"])) :=
  ⟨rfl,
   (missing_value_names_absent sampleRegistry 0 "listen" _ listenWithoutUrl rfl
     (by
       intro kv hkv
       simp only [listenWithoutUrl, JVal.forInEntries, List.mem_singleton] at hkv
       subst hkv
       exact ⟨.obj [("type", .str "number")], rfl, rfl⟩)).1⟩

/-! ### The action hook -/

/-- C11 (counterexample): on an executed instance whose instruction names an
action hook, `performAction` makes no call, because the constructor keeps the
hook in `actionHook` and `performAction` reads `action`; and on an executed task
whose `action` is set, an empty list returned by the hook replaces the
instruction list. -/
theorem performAction_silent_without_action :
    actionHookInstance.hooksBound = true ∧
    Task.performAction actionHookInstance.toTask (cognigyResult "timeout") .undefined .undefined
      (.ok (.arr [.obj [("verb", .str "hangup")]])) = ([], none) ∧
    Task.performAction { Task.create.exec with action := .str "/action" }
      (.str "POST") .undefined (cognigyResult "timeout") (.ok (.arr [])) =
      ([.actionHook (.str "/action") (.str "POST") .undefined (cognigyResult "timeout"),
        .replaceApplication (.arr [])], none) := by
  exact ⟨rfl, rfl, rfl⟩

/-- C11 (amended): on an executed task whose `action` is set, `performAction`
calls the action hook once with the action and the arguments it was given;
when the hook resolves, the instruction list is replaced with the result
exactly when the result is an array, the empty one included, and nothing is
raised; when the hook is rejected, nothing is replaced.  A task whose `action`
is unset makes no call. -/
theorem performAction_calls_hook (t : Task) (method auth results : JVal)
    (hook : Except JSError JVal) (hexec : t.hooksBound = true) :
    (t.action.truthy = true →
      (Task.performAction t method auth results hook).1.head? =
        some (.actionHook t.action method auth results) ∧
      (∀ tasks, hook = .ok tasks →
        Task.performAction t method auth results hook =
          (if tasks.isArray then
            [.actionHook t.action method auth results, .replaceApplication tasks]
           else [.actionHook t.action method auth results], none)) ∧
      (∀ e, hook = .error e →
        Task.performAction t method auth results hook =
          ([.actionHook t.action method auth results], some e))) ∧
    (t.action.truthy = false → Task.performAction t method auth results hook = ([], none)) := by
  constructor
  · intro ha
    refine ⟨?_, ?_, ?_⟩
    · simp only [Task.performAction, ha, hexec, if_true]
      cases hook with
      | error e => rfl
      | ok tasks => by_cases h : (tasks.truthy && tasks.isArray) = true <;> simp [h]
    · intro tasks ht
      subst ht
      simp only [Task.performAction, ha, hexec, if_true]
      cases tasks <;> simp [JVal.truthy, JVal.isArray]
    · intro e he
      subst he
      simp [Task.performAction, ha, hexec]
  · intro ha
    simp [Task.performAction, ha]

/-- C11 (amended) on an executed task with the action `/action` whose hook
returns one instruction. -/
theorem performAction_calls_hook_witness :
    (Task.exec { Task.create with action := .str "/action" }).hooksBound = true ∧
    Task.performAction (Task.exec { Task.create with action := .str "/action" })
        (.str "POST") .undefined (cognigyResult "timeout")
        (.ok (.arr [.obj [("verb", .str "hangup")]])) =
      ([.actionHook (.str "/action") (.str "POST") .undefined (cognigyResult "timeout"),
        .replaceApplication (.arr [.obj [("verb", .str "hangup")]])], none) :=
  ⟨rfl,
   ((performAction_calls_hook (Task.exec { Task.create with action := .str "/action" })
      (.str "POST") .undefined (cognigyResult "timeout")
      (.ok (.arr [.obj [("verb", .str "hangup")]])) rfl).1 rfl).2.1 _ rfl⟩

/-! ### Completion -/

/-- A property of the state that every assignment of the handlers keeps is
kept by the handler of every event. -/
theorem deliver_keeps (P : Cognigy → Prop)
    (hmark : ∀ s, P s → P (Cognigy.markAndNotify s).state)
    (hflag : ∀ s : Cognigy, P s → P { s with reportedFinalAction := true })
    (hgather : ∀ a b s, P s → P (Cognigy.gatherStep a b s).state)
    (hcount : ∀ s : Cognigy, P s → P { s with timeoutCount := s.timeoutCount + 1 })
    (hprompts : ∀ s : Cognigy, P s → P { s with prompts := [] })
    (hkill : ∀ s, P s → P (Cognigy.kill s).state)
    (s : Cognigy) (ev : Event) (h : P s) : P (Cognigy.deliver s ev).state := by
  have hfwd : ∀ (m : JVal) (b : Bool) (s : Cognigy), P s →
      P (Cognigy.forwardToBot m b s).state := by
    intro m b s hs
    unfold Cognigy.forwardToBot
    split
    · split
      · split
        · exact andThen_keeps P _ _ hs hmark
        · exact hs
      · exact hs
    · exact hs
  have hcont : ∀ (b : Bool) (hk : HookOutcome) (s : Cognigy), P s →
      P (Cognigy.hookContinuation b hk s).state := by
    intro b hk s hs
    unfold Cognigy.hookContinuation
    split
    · split
      · exact hflag s hs
      · exact hs
    · exact hs
  have hexh : ∀ s : Cognigy, P s → P (Cognigy.timeoutExhausted s).state := by
    intro s hs
    exact andThen_keeps P _ _ hs hmark
  cases ev with
  | transcription u hk t =>
    simp only [Cognigy.deliver]
    split
    · unfold Cognigy._onTranscription
      refine andThen_keeps P _ _ ?_ (hcont true hk)
      exact andThen_keeps P _ _ h (hfwd _ t)
    · exact h
  | dtmf d t =>
    simp only [Cognigy.deliver]
    split
    · exact hfwd d t s h
    · exact h
  | timeout =>
    simp only [Cognigy.deliver]
    split
    · unfold Cognigy._onTimeout
      split
      · split
        · split
          · exact hgather _ _ _ (hcount s h)
          · exact hexh _ (hcount s h)
        · exact hexh _ h
      · exact hexh _ h
    · exact h
  | error err =>
    simp only [Cognigy.deliver]
    split
    · exact andThen_keeps P _ _ h hmark
    · exact h
  | botOutput evt hk f =>
    simp only [Cognigy.deliver]
    split
    · unfold Cognigy._onBotUtterance
      refine hcont false hk _ ?_
      refine andThen_keeps P _ _ h ?_
      intro s1 h1
      unfold Cognigy.botUtteranceBody
      split
      · exact h1
      · refine andThen_keeps P _ _ ?_ ?_
        · refine andThen_keeps P _ _ h1 ?_
          intro s2 h2
          split
          · exact h2
          · exact h2
        · intro s2 h2
          have hctl : ∀ k r, P (Cognigy.controlStep k r f s2).state := by
            intro k r
            unfold Cognigy.controlStep
            cases f with
            | none =>
              simp only [Cognigy._enqueueTask, Cognigy.controlOp]
              refine andThen_keeps P _ _ h2 ?_
              intro s3 h3
              refine andThen_keeps P _ _ ?_ ?_
              · exact andThen_keeps P _ _ h3 hmark
              · intro s4 h4
                exact hkill s4 h4
            | some err =>
              exact andThen_keeps P _ _ (andThen_keeps P _ _ h2 (fun s hs => hs)) hmark
          split
          · split
            · exact hctl _ _
            · exact hctl _ _
            · exact h2
          · exact h2
    · exact h
  | botError evt =>
    simp only [Cognigy.deliver]
    split
    · unfold Cognigy._onBotError
      split
      · exact h
      · exact andThen_keeps P _ _ h hmark
    · exact h
  | finalPing =>
    simp only [Cognigy.deliver]
    split
    · unfold Cognigy._onBotFinalPing
      exact andThen_keeps P _ _ (hgather _ _ _ h) hprompts
    · exact h
  | kill => exact hkill s h

/-- The method `kill` leaves a resolved completion future resolved. -/
theorem kill_keeps_completion (s : Cognigy) (h : s.completionResolved = true) :
    (Cognigy.kill s).state.completionResolved = true := by
  unfold Cognigy.kill
  rcases hc : s.client with _ | c <;> rcases he : s.ep with _ | e <;>
    by_cases hr : s.hasReportedFinalAction = true <;>
    simp [h, hr, Task.kill, Task.notifyTaskDone]

/-- A resolved completion future is resolved after every sequence of events. -/
theorem run_keeps_completion (evs : List Event) :
    ∀ s : Cognigy, s.completionResolved = true →
      (Cognigy.run s evs).1.completionResolved = true := by
  induction evs with
  | nil => intro s h; exact h
  | cons ev rest ih =>
    intro s h
    exact ih _ (deliver_keeps (fun s => s.completionResolved = true)
      (fun _ _ => rfl) (fun _ h => h) (fun _ _ _ h => h) (fun _ h => h) (fun _ h => h)
      kill_keeps_completion s ev h)

/-- C12: `notifyTaskDone()` resolves the completion future, which is pending
after the constructor; a second call leaves the task exactly as the first left
it; neither call raises; and the future stays resolved whatever events
an instance handles afterwards. -/
theorem notifyTaskDone_twice (t : Task) (s : Cognigy) (evs : List Event) :
    Task.create.completionResolved = false ∧
    t.notifyTaskDone.completionResolved = true ∧
    t.notifyTaskDone.notifyTaskDone = t.notifyTaskDone ∧
    (Cognigy.notifyTaskDone s).raised = none ∧
    (Cognigy.notifyTaskDone (Cognigy.notifyTaskDone s).state).raised = none ∧
    (Cognigy.notifyTaskDone (Cognigy.notifyTaskDone s).state).state =
      (Cognigy.notifyTaskDone s).state ∧
    (Cognigy.run (Cognigy.notifyTaskDone s).state evs).1.completionResolved = true :=
  ⟨rfl, rfl, rfl, rfl, rfl, rfl, run_keeps_completion evs _ rfl⟩

/-! ### The closed queue -/

/-- No effect of `kill` is a push on the queue. -/
theorem killEffects_no_push (tt : Bool) (client : Option Client) (reported : Bool)
    (ep : Option Endpoint) :
    (killEffects tt client reported ep).all (fun e => !e.isPush) = true := by
  rcases client with _ | ⟨_ | _, cl⟩ <;> rcases ep with _ | ⟨_ | _⟩ <;> cases tt <;>
    cases reported <;> simp [killEffects, Effect.isPush]

/-- After `kill` no listener is attached. -/
theorem kill_detaches (s : Cognigy) : Cognigy.detached (Cognigy.kill s).state := by
  unfold Cognigy.kill Cognigy.detached Cognigy.clientListening
  rcases hc : s.client with _ | c <;> rcases he : s.ep with _ | e <;>
    by_cases hr : s.hasReportedFinalAction = true <;> simp [hr, hc]

/-- After `kill` closed the queue it is closed. -/
theorem kill_closes_queue (s : Cognigy) (hc : s.client.isSome = true) :
    (Cognigy.kill s).state.queueEnded = true := by
  unfold Cognigy.kill
  rcases hcl : s.client with _ | c
  · simp [hcl] at hc
  · rcases he : s.ep with _ | e <;>
      by_cases hr : s.hasReportedFinalAction = true <;> simp [hr]

/-- While no listener is attached a handler pushes nothing and attaches none. -/
theorem detached_deliver (s : Cognigy) (ev : Event) (h : Cognigy.detached s) :
    (Cognigy.deliver s ev).trace.all (fun e => !e.isPush) = true ∧
    Cognigy.detached (Cognigy.deliver s ev).state := by
  obtain ⟨h1, h2⟩ := h
  cases ev with
  | kill =>
    refine ⟨?_, kill_detaches s⟩
    show (Cognigy.kill s).trace.all (fun e => !e.isPush) = true
    rw [kill_trace_eq]
    exact killEffects_no_push _ _ _ _
  | transcription u hk t => simp [Cognigy.deliver, h1, Cognigy.idle, Cognigy.detached, h2]
  | dtmf d t => simp [Cognigy.deliver, h1, Cognigy.idle, Cognigy.detached, h2]
  | timeout => simp [Cognigy.deliver, h1, Cognigy.idle, Cognigy.detached, h2]
  | error err => simp [Cognigy.deliver, h1, Cognigy.idle, Cognigy.detached, h2]
  | botOutput evt hk f => simp [Cognigy.deliver, h1, Cognigy.idle, Cognigy.detached, h2]
  | botError evt => simp [Cognigy.deliver, h1, Cognigy.idle, Cognigy.detached, h2]
  | finalPing => simp [Cognigy.deliver, h1, Cognigy.idle, Cognigy.detached, h2]

/-- While no listener is attached no sequence of events pushes on the queue. -/
theorem detached_run (evs : List Event) :
    ∀ s : Cognigy, Cognigy.detached s →
      (Cognigy.run s evs).2.all (fun e => !e.isPush) = true := by
  induction evs with
  | nil => intro s _; rfl
  | cons ev rest ih =>
    intro s h
    obtain ⟨h1, h2⟩ := detached_deliver s ev h
    simp only [Cognigy.run, List.all_append, Bool.and_eq_true]
    exact ⟨h1, ih _ h2⟩

/-- C16 (counterexample): on an instance whose queue `kill` has closed,
`_enqueueTask` pushes the operation, the operation runs (the say step is made)
and nothing is rejected. -/
theorem enqueue_after_end_runs :
    killedInstance.queueEnded = true ∧
    (Cognigy._enqueueTask (Cognigy.sayOp (.str "hello")) killedInstance).trace =
      [.queuePush, Cognigy._makeSayTask killedInstance (.str "hello")] ∧
    (Cognigy._enqueueTask (Cognigy.sayOp (.str "hello")) killedInstance).raised = none := by
  exact ⟨rfl, rfl, rfl⟩

/-- C16 (amended): `_enqueueTask` does not look at whether the queue was
closed: in every state it pushes the operation, the operation runs, and the
returned future is rejected exactly when the operation raises.  What keeps
operations out of a closed queue is that `kill` detaches all listeners before
it closes the queue: after `kill` the queue of a bound instance is closed and
no sequence of events makes a handler push. -/
theorem enqueue_ignores_closed_queue (op : Cognigy → Step) (s : Cognigy) (evs : List Event) :
    (Cognigy._enqueueTask op s).trace = .queuePush :: (op s).trace ∧
    (Cognigy._enqueueTask op s).raised = (op s).raised ∧
    (Cognigy._enqueueTask op s).state = (op s).state ∧
    (s.client.isSome = true → (Cognigy.kill s).state.queueEnded = true) ∧
    (Cognigy.run (Cognigy.kill s).state evs).2.all (fun e => !e.isPush) = true :=
  ⟨rfl, rfl, rfl, kill_closes_queue s, detached_run evs _ (kill_detaches s)⟩

/-- C16 (amended) on the connected sample instance: after `kill` a bot reply
with text is not handled, so nothing is pushed. -/
theorem enqueue_ignores_closed_queue_witness :
    activeInstance.client.isSome = true ∧
    (Cognigy.kill activeInstance).state.queueEnded = true ∧
    (Cognigy.run (Cognigy.kill activeInstance).state
      [.botOutput (.obj [("text", .str "hello")]) (.resolved false) none]).2.all
        (fun e => !e.isPush) = true :=
  ⟨rfl,
   (enqueue_ignores_closed_queue (Cognigy.sayOp (.str "hello")) activeInstance
     [.botOutput (.obj [("text", .str "hello")]) (.resolved false) none]).2.2.2.1 rfl,
   (enqueue_ignores_closed_queue (Cognigy.sayOp (.str "hello")) activeInstance
     [.botOutput (.obj [("text", .str "hello")]) (.resolved false) none]).2.2.2.2⟩

/-! ### The timeout counter -/

/-- The method `kill` assigns neither the timeout counter nor the retry policy. -/
theorem kill_keeps_retry (s : Cognigy) :
    (Cognigy.kill s).state.timeoutCount = s.timeoutCount ∧
    (Cognigy.kill s).state.retry = s.retry ∧
    (Cognigy.kill s).state.configRetry = s.configRetry := by
  unfold Cognigy.kill
  rcases hc : s.client with _ | c <;> rcases he : s.ep with _ | e <;>
    by_cases hr : s.hasReportedFinalAction = true <;> simp [hr]

/-- No handler decreases the timeout counter. -/
theorem deliver_count_mono (s : Cognigy) (ev : Event) :
    s.timeoutCount ≤ (Cognigy.deliver s ev).state.timeoutCount :=
  deliver_keeps (fun s2 => s.timeoutCount ≤ s2.timeoutCount)
    (fun _ h => h) (fun _ h => h) (fun _ _ _ h => h) (fun _ h => Nat.le_succ_of_le h)
    (fun _ h => h) (fun s2 h => by
      show s.timeoutCount ≤ (Cognigy.kill s2).state.timeoutCount
      rw [(kill_keeps_retry s2).1]; exact h) s ev (Nat.le_refl _)

/-- No sequence of events decreases the timeout counter. -/
theorem run_count_mono (evs : List Event) :
    ∀ s : Cognigy, s.timeoutCount ≤ (Cognigy.run s evs).1.timeoutCount := by
  induction evs with
  | nil => intro s; exact Nat.le_refl _
  | cons ev rest ih =>
    intro s
    exact Nat.le_trans (deliver_count_mono s ev) (ih _)

/-- Every handler keeps the policy in force within the fixed policy. -/
theorem deliver_keeps_policy (policy : Retry) (s : Cognigy) (ev : Event)
    (h : Cognigy.policyWithin policy s) :
    Cognigy.policyWithin policy (Cognigy.deliver s ev).state := by
  refine deliver_keeps (Cognigy.policyWithin policy)
    (fun _ h => h) (fun _ h => h) ?_ (fun _ h => h) (fun _ h => h) ?_ s ev h
  · intro a b s2 h2
    refine ⟨h2.1, ?_⟩
    intro n hn
    have hn2 : s2.configRetry.noInputRetries = some n := hn
    rw [h2.1] at hn2
    rw [hn2]
    exact Nat.le_refl _
  · intro s2 h2
    obtain ⟨k1, k2, k3⟩ := kill_keeps_retry s2
    exact ⟨k3.trans h2.1, fun n hn => h2.2 n (by rw [← k2]; exact hn)⟩

/-- The handler `_onTimeout` makes a gather step only when the counter is
below `noInputRetries`; it then makes one and the counter is one higher. -/
theorem onTimeout_gathers (s : Cognigy) :
    ((∃ n, s.retry.noInputRetries = some n ∧ s.timeoutCount < n) ∧
      ((Cognigy._onTimeout s).trace.filter Effect.isGather).length = 1 ∧
      (Cognigy._onTimeout s).state.timeoutCount = s.timeoutCount + 1) ∨
    ((¬ ∃ n, s.retry.noInputRetries = some n ∧ s.timeoutCount < n) ∧
      ((Cognigy._onTimeout s).trace.filter Effect.isGather).length = 0) := by
  unfold Cognigy._onTimeout
  cases hn : s.retry.noInputRetries with
  | none =>
    right
    refine ⟨by simp, ?_⟩
    by_cases hr : s.hasReportedFinalAction = true <;>
      simp [Cognigy.timeoutExhausted, Cognigy.reportUnlessReported, Cognigy.markAndNotify,
        Cognigy.notifyTaskDone, Step.andThen, hr, Effect.isGather]
  | some n =>
    by_cases h0 : n = 0
    · right
      subst h0
      refine ⟨by simp, ?_⟩
      by_cases hr : s.hasReportedFinalAction = true <;>
        simp [Cognigy.timeoutExhausted, Cognigy.reportUnlessReported, Cognigy.markAndNotify,
          Cognigy.notifyTaskDone, Step.andThen, hr, Effect.isGather]
    · by_cases hlt : s.timeoutCount < n
      · left
        refine ⟨⟨n, rfl, hlt⟩, ?_⟩
        simp [h0, hlt, Cognigy.gatherStep, Cognigy._makeGatherTask, Step.andThen,
          Effect.isGather]
      · right
        refine ⟨by simpa using hlt, ?_⟩
        by_cases hr : s.hasReportedFinalAction = true <;>
          simp [h0, hlt, Cognigy.timeoutExhausted, Cognigy.reportUnlessReported,
            Cognigy.markAndNotify, Cognigy.notifyTaskDone, Step.andThen, hr, Effect.isGather,
            Cognigy.hasReportedFinalAction] <;> simp_all [Cognigy.hasReportedFinalAction]

/-- The re-prompts of a sequence of events fit in what the counter leaves of
the retries of the fixed policy. -/
theorem reprompts_le (policy : Retry) (evs : List Event) :
    ∀ s : Cognigy, Cognigy.policyWithin policy s →
      Cognigy.reprompts s evs ≤ policy.noInputRetries.getD 0 - s.timeoutCount := by
  induction evs with
  | nil => intro s _; exact Nat.zero_le _
  | cons ev rest ih =>
    intro s hs
    have hnext := ih _ (deliver_keeps_policy policy s ev hs)
    have hmono := deliver_count_mono s ev
    have hother : Cognigy.reprompts (Cognigy.deliver s ev).state rest ≤
        policy.noInputRetries.getD 0 - s.timeoutCount := by omega
    cases ev with
    | timeout =>
      simp only [Cognigy.reprompts]
      by_cases hl : s.listeners = true
      · have hd : Cognigy.deliver s .timeout = Cognigy._onTimeout s := by
          simp [Cognigy.deliver, hl]
        rw [hd] at hnext ⊢
        rcases onTimeout_gathers s with ⟨⟨n, hn, hlt⟩, hg, hc⟩ | ⟨_, hg⟩
        · have hle := hs.2 n hn
          rw [hg]
          rw [hc] at hnext
          omega
        · rw [hg]
          rw [hd] at hmono
          omega
      · have hd : Cognigy.deliver s .timeout = Cognigy.idle s := by
          simp [Cognigy.deliver, hl]
        rw [hd] at hnext ⊢
        simpa [Cognigy.idle] using hnext
    | transcription u hk t => simpa only [Cognigy.reprompts] using hother
    | dtmf d t => simpa only [Cognigy.reprompts] using hother
    | botOutput evt hk f => simpa only [Cognigy.reprompts] using hother
    | botError evt => simpa only [Cognigy.reprompts] using hother
    | finalPing => simpa only [Cognigy.reprompts] using hother
    | error err => simpa only [Cognigy.reprompts] using hother
    | kill => simpa only [Cognigy.reprompts] using hother

/-- C17: the timeout counter starts at 0, no handler and no sequence of events
decreases it, `_onTimeout` makes a gather step only when the counter before the
event is below `noInputRetries`, and with a fixed policy the handlers of the
timeout events of an instance make at most `noInputRetries` gather steps over
all the events it handles after `exec`. -/
theorem timeout_counter_bounds_reprompts (opts : JVal) (policy : Retry) (ep : Endpoint)
    (connects : Bool) (welcome : JVal) (s : Cognigy) (ev : Event) (evs : List Event) :
    (Cognigy.create opts policy).timeoutCount = 0 ∧
    s.timeoutCount ≤ (Cognigy.deliver s ev).state.timeoutCount ∧
    s.timeoutCount ≤ (Cognigy.run s evs).1.timeoutCount ∧
    ((Cognigy._onTimeout s).trace.any Effect.isGather = true →
      ∃ n, s.retry.noInputRetries = some n ∧ s.timeoutCount < n) ∧
    Cognigy.reprompts (Cognigy.exec (Cognigy.create opts policy) ep connects welcome).state evs ≤
      policy.noInputRetries.getD 0 := by
  refine ⟨rfl, deliver_count_mono s ev, run_count_mono evs s, ?_, ?_⟩
  · intro hg
    rcases onTimeout_gathers s with ⟨hlt, _, _⟩ | ⟨_, h0⟩
    · exact hlt
    · exfalso
      rw [List.length_eq_zero, List.filter_eq_nil_iff] at h0
      rw [List.any_eq_true] at hg
      obtain ⟨e, he, hge⟩ := hg
      exact h0 e he hge
  · have h := reprompts_le policy evs
      (Cognigy.exec (Cognigy.create opts policy) ep connects welcome).state
      ⟨rfl, fun n hn => by simp [Cognigy.exec, Cognigy.create] at hn⟩
    exact Nat.le_trans h (Nat.sub_le _ _)

/-- C17 on the sample policy of two retries: four timeouts after the final ping
make two gather steps. -/
theorem timeout_counter_bounds_reprompts_witness :
    Cognigy.reprompts activeInstance [.finalPing, .timeout, .timeout, .timeout, .timeout] = 2 ∧
    Cognigy.reprompts activeInstance [.finalPing, .timeout, .timeout, .timeout, .timeout] ≤
      samplePolicy.noInputRetries.getD 0 :=
  ⟨by decide, (timeout_counter_bounds_reprompts
    (.obj [("url", .str "https://bot.example.com"), ("token", .str "t")]) samplePolicy
    { connected := true } true (.obj []) activeInstance .finalPing
    [.finalPing, .timeout, .timeout, .timeout, .timeout]).2.2.2.2⟩

/-! ### References in specs -/

/-- The loop over the members returns normally exactly when every member is accepted. -/
theorem validateItems_ok_iff (recur : String → JVal → Outcome) (name : String) :
    ∀ items : List JVal, validateItems recur name items = some (.ok ()) ↔
      ∀ i ∈ items, recur name i = some (.ok ()) := by
  intro items
  induction items with
  | nil => simp [validateItems]
  | cons item rest ih =>
    simp only [validateItems, List.mem_cons, forall_eq_or_imp]
    rcases h : recur name item with _ | (e | u)
    · simp
    · simp
    · simpa using ih

/-- The loop over the members stops at the first member that is not accepted
and has its outcome. -/
theorem validateItems_first_failure (recur : String → JVal → Outcome) (name : String)
    (pre post : List JVal) (item : JVal) (o : Outcome)
    (hpre : ∀ i ∈ pre, recur name i = some (.ok ()))
    (hitem : recur name item = o) (hfail : o ≠ some (.ok ())) :
    validateItems recur name (pre ++ item :: post) = o := by
  induction pre with
  | nil =>
    subst hitem
    rw [List.nil_append]
    unfold validateItems
    rcases h : recur name item with _ | (e | u)
    · rfl
    · rfl
    · exact absurd h hfail
  | cons p pre ih =>
    simp only [List.cons_append, validateItems, hpre p (List.mem_cons_self _ _)]
    exact ih (fun i hi => hpre i (List.mem_cons_of_mem _ hi))

/-- C18 (defect of the code): against the array-of-reference descriptor
`['#target']` the empty string, which is no array, is accepted: the branch
iterates the value without testing `Array.isArray`, as the branch for `'array'`
does.  For a value that is an array the claim holds: the members are validated
in order against the referenced spec, the value is accepted exactly when every
member is, the first member that fails gives the outcome, and a single
reference is the nested call on the value. -/
theorem array_of_reference_accepts_string (fuel : Nat) (items pre post : List JVal)
    (item dVal : JVal) :
    checkProperty (Task.validate sampleRegistry fuel) "dial" "target" (.str "")
        (.arr [.str "#target"]) = some (.ok ()) ∧
    (JVal.str "").isArray = false ∧
    checkProperty (Task.validate sampleRegistry fuel) "dial" "target" (.str "")
        (.str "array") = some (.error (.notAnArray "dial" "target")) ∧
    checkProperty (Task.validate sampleRegistry fuel) "dial" "target" (.arr items)
        (.arr [.str "#target"]) =
      validateItems (Task.validate sampleRegistry fuel) "target" items ∧
    (validateItems (Task.validate sampleRegistry fuel) "target" items = some (.ok ()) ↔
      ∀ i ∈ items, Task.validate sampleRegistry fuel "target" i = some (.ok ())) ∧
    ((∀ i ∈ pre, Task.validate sampleRegistry fuel "target" i = some (.ok ())) →
      Task.validate sampleRegistry fuel "target" item ≠ some (.ok ()) →
      validateItems (Task.validate sampleRegistry fuel) "target" (pre ++ item :: post) =
        Task.validate sampleRegistry fuel "target" item) ∧
    checkProperty (Task.validate sampleRegistry fuel) "dial" "target" dVal (.str "#target") =
      Task.validate sampleRegistry fuel "target" dVal :=
  ⟨rfl, rfl, rfl, rfl, validateItems_ok_iff _ _ items,
   fun hpre hfail => validateItems_first_failure _ _ pre post item _ hpre rfl hfail, rfl⟩

/-! ### Termination of validation -/

/-- The first index key of a non-empty list is `0`. -/
theorem indexed_cons (x : JVal) (xs : List JVal) :
    ∃ rest, JVal.indexed (x :: xs) = ("0", x) :: rest := by
  refine ⟨((List.range xs.length).map (fun i => toString (i + 1))).zip xs, ?_⟩
  simp only [JVal.indexed, List.length_cons, List.range_succ_eq_map, List.map_cons,
    List.zip_cons_cons, List.map_map]
  rfl

/-- The loop over the keys returns at once when the spec lacks the first key. -/
theorem validateKeys_unregistered_head (recur : String → JVal → Outcome) (name : String)
    (specData : SpecData) (required : List String) (k : String) (v : JVal)
    (rest : List (String × JVal)) (h : specData.properties.lookup k = none) :
    (validateKeys recur name specData required ((k, v) :: rest)).isSome = true := by
  simp only [validateKeys, h]
  split <;> rfl

/-- Without a property named `0`, the call on a value that is no object returns
within one level: there is no key, or the first key is `0`. -/
theorem validate_returns_on_indexed (specs : Registry) (h0 : specs.noIndexZero)
    (fuel : Nat) (name : String) (v : JVal)
    (hv : v.forInEntries = [] ∨ ∃ x rest, v.forInEntries = ("0", x) :: rest) :
    (Task.validate specs (fuel + 1) name v).isSome = true := by
  simp only [Task.validate]
  cases hl : specs.lookup name with
  | none => rfl
  | some specData =>
    simp only []
    rcases hv with hv | ⟨x, rest, hv⟩
    · rw [hv]
      simp only [validateKeys]
      split <;> rfl
    · rw [hv]
      exact validateKeys_unregistered_head _ _ _ _ _ _ _ (h0 name specData hl)

/-- The loop over the members returns when the call on every member does. -/
theorem validateItems_returns (recur : String → JVal → Outcome) (name : String) :
    ∀ items : List JVal, (∀ i ∈ items, (recur name i).isSome = true) →
      (validateItems recur name items).isSome = true := by
  intro items
  induction items with
  | nil => intro _; rfl
  | cons item rest ih =>
    intro h
    have h1 := h item (List.mem_cons_self _ _)
    unfold validateItems
    rcases hr : recur name item with _ | (e | u)
    · rw [hr] at h1; exact absurd h1 (by simp)
    · rfl
    · exact ih (fun i hi => h i (List.mem_cons_of_mem _ hi))

/-- The check of one value returns when the nested call on it and the loop
over its members do. -/
theorem checkProperty_returns (recur : String → JVal → Outcome) (name dKey : String)
    (dVal dSpec : JVal) (h1 : ∀ ref, (recur ref dVal).isSome = true)
    (h2 : ∀ ref items, dVal.forOfItems = .ok items →
      (validateItems recur ref items).isSome = true) :
    (checkProperty recur name dKey dVal dSpec).isSome = true := by
  rcases checkProperty_shape name dKey dVal dSpec with ⟨c, hp, _⟩ | ⟨ref, hp, _⟩ |
    ⟨ref, items, hi, hp, _⟩
  · rw [hp]; rfl
  · rw [hp]; exact h1 ref
  · rw [hp]; exact h2 ref items hi

/-- The loop over the keys returns when the check of every value does. -/
theorem validateKeys_returns (recur : String → JVal → Outcome) (name : String)
    (specData : SpecData) :
    ∀ (entries : List (String × JVal)) (required : List String),
      (∀ kv ∈ entries, (∀ ref, (recur ref kv.2).isSome = true) ∧
        ∀ ref items, kv.2.forOfItems = .ok items →
          (validateItems recur ref items).isSome = true) →
      (validateKeys recur name specData required entries).isSome = true := by
  intro entries
  induction entries with
  | nil =>
    intro required _
    simp only [validateKeys]
    split <;> rfl
  | cons kv rest ih =>
    intro required h
    obtain ⟨k, v⟩ := kv
    have hkv := h (k, v) (List.mem_cons_self _ _)
    simp only [validateKeys]
    cases hl : specData.properties.lookup k with
    | none =>
      simp only []
      split <;> rfl
    | some dSpec =>
      simp only []
      have hc := checkProperty_returns recur name k v dSpec hkv.1 hkv.2
      rcases hr : checkProperty recur name k v dSpec with _ | (e | u)
      · rw [hr] at hc; exact absurd hc (by simp)
      · rfl
      · exact ih _ (fun kv hkv => h kv (List.mem_cons_of_mem _ hkv))

/-- A larger budget serves as well. -/
theorem Returns.mono (specs : Registry) (v : JVal) (F G : Nat) (h : Returns specs v F)
    (hle : F ≤ G) : Returns specs v G :=
  fun fuel hf name => h fuel (Nat.le_trans hle hf) name

/-- The members of a string are strings of one character. -/
theorem chars_indexed (c : Char) : (JVal.str (String.mk [c])).forInEntries =
    [("0", .str (String.mk [c]))] := rfl

/-- Without a property named `0`, the call on a string and the loop over its
characters return within one level. -/
theorem returns_str (specs : Registry) (h0 : specs.noIndexZero) (s : String) :
    Returns specs (.str s) 1 := by
  intro fuel hf name
  obtain ⟨f, rfl⟩ : ∃ f, fuel = f + 1 := ⟨fuel - 1, by omega⟩
  constructor
  · apply validate_returns_on_indexed specs h0
    simp only [JVal.forInEntries, JVal.chars]
    cases s.data with
    | nil => left; rfl
    | cons c cs => right; exact ⟨_, (indexed_cons _ _).choose, (indexed_cons _ _).choose_spec⟩
  · intro items hi
    simp only [JVal.forOfItems, Except.ok.injEq] at hi
    subst hi
    apply validateItems_returns
    intro i hmem
    simp only [JVal.chars, List.mem_map] at hmem
    obtain ⟨c, _, rfl⟩ := hmem
    exact validate_returns_on_indexed specs h0 f name _ (Or.inr ⟨_, [], chars_indexed c⟩)

/-- Without a property named `0` in any spec, `Task.validate` returns on every
value within some budget of nested calls, and within every larger one. -/
theorem returns_without_index_zero (specs : Registry) (h0 : specs.noIndexZero)
    (data : JVal) : ∃ F, Returns specs data F := by
  refine JVal.rec
    (motive_1 := fun v => ∃ F, Returns specs v F)
    (motive_2 := fun xs => ∃ F, ∀ x ∈ xs, Returns specs x F)
    (motive_3 := fun ps => ∃ F, ∀ kv ∈ ps, Returns specs kv.2 F)
    (motive_4 := fun kv => ∃ F, Returns specs kv.2 F)
    ?_ ?_ ?_ ?_ ?_ ?_ ?_ ?_ ?_ ?_ ?_ ?_ data
  · refine ⟨1, fun fuel hf name => ?_⟩
    obtain ⟨f, rfl⟩ : ∃ f, fuel = f + 1 := ⟨fuel - 1, by omega⟩
    exact ⟨validate_returns_on_indexed specs h0 f name _ (Or.inl rfl),
      fun items hi => by simp [JVal.forOfItems] at hi⟩
  · refine ⟨1, fun fuel hf name => ?_⟩
    obtain ⟨f, rfl⟩ : ∃ f, fuel = f + 1 := ⟨fuel - 1, by omega⟩
    exact ⟨validate_returns_on_indexed specs h0 f name _ (Or.inl rfl),
      fun items hi => by simp [JVal.forOfItems] at hi⟩
  · intro b
    refine ⟨1, fun fuel hf name => ?_⟩
    obtain ⟨f, rfl⟩ : ∃ f, fuel = f + 1 := ⟨fuel - 1, by omega⟩
    exact ⟨validate_returns_on_indexed specs h0 f name _ (Or.inl rfl),
      fun items hi => by simp [JVal.forOfItems] at hi⟩
  · intro n
    refine ⟨1, fun fuel hf name => ?_⟩
    obtain ⟨f, rfl⟩ : ∃ f, fuel = f + 1 := ⟨fuel - 1, by omega⟩
    exact ⟨validate_returns_on_indexed specs h0 f name _ (Or.inl rfl),
      fun items hi => by simp [JVal.forOfItems] at hi⟩
  · intro s
    exact ⟨1, returns_str specs h0 s⟩
  · intro items ⟨F, hF⟩
    refine ⟨F + 1, fun fuel hf name => ?_⟩
    obtain ⟨f, rfl⟩ : ∃ f, fuel = f + 1 := ⟨fuel - 1, by omega⟩
    constructor
    · apply validate_returns_on_indexed specs h0
      simp only [JVal.forInEntries]
      cases items with
      | nil => left; rfl
      | cons x xs => right; exact ⟨_, (indexed_cons x xs).choose, (indexed_cons x xs).choose_spec⟩
    · intro its hi
      simp only [JVal.forOfItems, Except.ok.injEq] at hi
      subst hi
      apply validateItems_returns
      intro i hmem
      exact (hF i hmem (f + 1) (by omega) name).1
  · intro props ⟨F, hF⟩
    refine ⟨F + 1, fun fuel hf name => ?_⟩
    obtain ⟨f, rfl⟩ : ∃ f, fuel = f + 1 := ⟨fuel - 1, by omega⟩
    constructor
    · simp only [Task.validate]
      cases hl : specs.lookup name with
      | none => rfl
      | some specData =>
        simp only [JVal.forInEntries]
        apply validateKeys_returns
        intro kv hkv
        exact ⟨fun ref => (hF kv hkv f (by omega) ref).1,
          fun ref its hi => (hF kv hkv f (by omega) ref).2 its hi⟩
    · intro its hi
      simp [JVal.forOfItems] at hi
  · exact ⟨0, fun x hx => by simp at hx⟩
  · intro x xs ⟨F, hF⟩ ⟨G, hG⟩
    refine ⟨max F G, fun y hy => ?_⟩
    rcases List.mem_cons.mp hy with rfl | hy
    · exact Returns.mono specs _ F _ hF (le_max_left _ _)
    · exact Returns.mono specs _ G _ (hG y hy) (le_max_right _ _)
  · exact ⟨0, fun x hx => by simp at hx⟩
  · intro kv ps ⟨F, hF⟩ ⟨G, hG⟩
    refine ⟨max F G, fun y hy => ?_⟩
    rcases List.mem_cons.mp hy with rfl | hy
    · exact Returns.mono specs _ F _ hF (le_max_left _ _)
    · exact Returns.mono specs _ G _ (hG y hy) (le_max_right _ _)
  · intro k v h
    exact h

/-- C19 (counterexample): the only key of the one-character string `'a'` is `0`
and its value is `'a'` again; against a spec whose property `0` refers to the
spec itself the nested call is made on the same value, and `Task.validate`
returns within no budget of nested calls, neither on the string nor on an
object that holds it under a key validated by reference. -/
theorem validate_diverges_on_one_character :
    (JVal.str "a").forInEntries = [("0", .str "a")] ∧
    (∀ fuel, Task.validate loopRegistry fuel "X" (.str "a") = none) ∧
    (∀ fuel, Task.validate loopRegistry fuel "holder" (.obj [("k", .str "a")]) = none) := by
  have h : ∀ f, Task.validate loopRegistry f "X" (.str "a") = none := by
    intro f
    induction f with
    | zero => rfl
    | succ f ih =>
      have step : Task.validate loopRegistry (f + 1) "X" (.str "a") =
          Task.validate loopRegistry f "X" (.str "a") := by
        show (match Task.validate loopRegistry f "X" (.str "a") with
          | some (.ok ()) => _
          | r => r) = _
        rw [ih]
      rw [step, ih]
  refine ⟨rfl, h, ?_⟩
  intro fuel
  cases fuel with
  | zero => rfl
  | succ f =>
    show (match Task.validate loopRegistry f "X" (.str "a") with
      | some (.ok ()) => _
      | r => r) = _
    rw [h f]

/-- C19 (amended): when no spec of the registry declares a property named `0`,
`Task.validate` returns or raises on every data value and every name within
some budget of nested calls and within every larger one, also when the specs
refer to each other in a cycle: a nested call on an object is made on a value
of one of its keys, and a call on a string or an array stops at its first key. -/
theorem validate_terminates (specs : Registry) (h0 : specs.noIndexZero) (data : JVal) :
    ∃ F, ∀ fuel, F ≤ fuel → ∀ name, ∃ o, Task.validate specs fuel name data = some o := by
  obtain ⟨F, hF⟩ := returns_without_index_zero specs h0 data
  exact ⟨F, fun fuel hf name => Option.isSome_iff_exists.mp (hF fuel hf name).1⟩

/-- C19 (amended) on two specs that refer to each other and a payload nested
along the references. -/
theorem validate_terminates_witness :
    cyclicRegistry.noIndexZero ∧
    Task.validate cyclicRegistry 4 "A" nestedPayload = some (.ok ()) ∧
    ∃ F, ∀ fuel, F ≤ fuel → ∀ name, ∃ o,
      Task.validate cyclicRegistry fuel name nestedPayload = some o :=
  have h0 : cyclicRegistry.noIndexZero := by
    intro name specData h
    simp only [cyclicRegistry, List.lookup] at h
    split at h
    · simp only [Option.some.injEq] at h
      subst h
      rfl
    · split at h
      · simp only [Option.some.injEq] at h
        subst h
        rfl
      · exact absurd h (by simp)
  ⟨h0, rfl, validate_terminates cyclicRegistry h0 nestedPayload⟩

/-! ### Totality of the reply parser -/

/-- The function `parseQuickReplies` throws exactly on a nullish argument. -/
theorem parseQuickReplies_raises (c : JVal) (e : JSError)
    (h : parseQuickReplies c = .error e) : e = .typeError ∧ c.isNullish = true := by
  unfold parseQuickReplies at h
  cases c with
  | undefined => simp [JVal.get] at h; exact ⟨h.symm, rfl⟩
  | null => simp [JVal.get] at h; exact ⟨h.symm, rfl⟩
  | obj ps =>
    simp only [JVal.get] at h
    split at h
    · split at h
      · split at h <;> exact Except.noConfusion h
      · exact Except.noConfusion h
    · exact Except.noConfusion h
  | bool b => simp [JVal.get, JVal.truthy] at h
  | num n => simp [JVal.get, JVal.truthy] at h
  | str t => simp [JVal.get, JVal.truthy] at h
  | arr xs => simp [JVal.get, JVal.truthy] at h

/-- The function `parseGallery` throws exactly on the argument `null`. -/
theorem parseGallery_raises (c : JVal) (e : JSError)
    (h : parseGallery c = .error e) : e = .typeError ∧ c = .null := by
  unfold parseGallery at h
  cases c with
  | undefined => simp [JVal.get, JVal.truthy] at h
  | null => simp [JVal.get] at h; exact ⟨h.symm, rfl⟩
  | obj ps =>
    simp only [JVal.get] at h
    split at h
    · split at h <;> exact Except.noConfusion h
    · exact Except.noConfusion h
  | bool b => simp [JVal.get, JVal.truthy] at h
  | num n => simp [JVal.get, JVal.truthy] at h
  | str t => simp [JVal.get, JVal.truthy] at h
  | arr xs => simp [JVal.get, JVal.truthy] at h

/-- C20 (defect of the code): `parseBotText` is not total on reply objects.  On
a reply of type `quickReplies` whose data has no `_cognigy` payload, or has the
payload `null`, it throws a `TypeError`, and so it does on a reply of type
`gallery` with the payload `null`; these are the only reply objects on which it
throws.  On a `quickReplies` payload without `_default` and on a `gallery`
reply without payload it returns no text. -/
theorem parseBotText_not_total (props : List (String × JVal)) (e : JSError) :
    parseBotText bareQuickReplies = .error .typeError ∧
    parseBotText nullQuickReplies = .error .typeError ∧
    parseBotText nullGallery = .error .typeError ∧
    parseBotText (.obj [("data", .obj [("type", .str "quickReplies"), ("_cognigy", .obj [])])]) =
      .ok .undefined ∧
    parseBotText (.obj [("data", .obj [("type", .str "gallery"), ("_cognigy", .obj [])])]) =
      .ok .undefined ∧
    (parseBotText (.obj props) = .error e →
      e = .typeError ∧
      ((JVal.obj props).getOpt "text").truthy = false ∧
      ((((JVal.obj props).getOpt "data").getOpt "type" = .str "quickReplies" ∧
          (((JVal.obj props).getOpt "data").getOpt "_cognigy").isNullish = true) ∨
        (((JVal.obj props).getOpt "data").getOpt "type" = .str "gallery" ∧
          ((JVal.obj props).getOpt "data").getOpt "_cognigy" = .null))) := by
  refine ⟨rfl, rfl, rfl, rfl, rfl, ?_⟩
  intro h
  simp only [parseBotText, JVal.get] at h
  simp only [JVal.getOpt]
  split at h
  · exact Except.noConfusion h
  · rename_i ht
    have ht2 : ((List.lookup "text" props).getD JVal.undefined).truthy = false := by
      simpa using ht
    split at h
    · rename_i hty
      obtain ⟨h1, h2⟩ := parseQuickReplies_raises _ e h
      exact ⟨h1, ht2, Or.inl ⟨hty, h2⟩⟩
    · rename_i hty
      obtain ⟨h1, h2⟩ := parseGallery_raises _ e h
      exact ⟨h1, ht2, Or.inr ⟨hty, h2⟩⟩
    · exact Except.noConfusion h

end Jambonz
